import Mathlib

/-!
Verification of the standard-cost calculation core (backend/app/services):
allocation.py, cost_calculation.py, variance_analysis.py, reconciliation.py.

Python `Decimal` values are embedded as rationals (ℚ); the `quantize(FOUR,
ROUND_HALF_UP)` operation (round to 4 decimal places, ties away from zero)
is `round4`.  Python dicts that the services build in insertion order are
embedded as association lists `List (String × _)`; keys are the stringified
UUIDs the services use.  Database sessions are embedded as explicit record
states threaded through the functions that read and write them.
-/

namespace StdCost

/-- Round ties away from zero to an integer: Python's ROUND_HALF_UP mode. -/
def rhalfUp (q : ℚ) : ℤ :=
  if 0 ≤ q then ⌊q + 1 / 2⌋ else -⌊-q + 1 / 2⌋

/-- Python `Decimal.quantize(Decimal("0.0001"), rounding=ROUND_HALF_UP)`:
round to 4 fractional digits, ties away from zero. -/
def round4 (q : ℚ) : ℚ := (rhalfUp (q * 10000) : ℚ) / 10000

/-! ## allocation.py: allocate_by_quantity / allocate_by_ratio

The Python loop `for i, (item_id, qty) in enumerate(items)` gives the last
item the remainder `total_budget - allocated_sum`; every earlier item gets
its share `total_budget * qty / total_qty` rounded half-up to 4 places. -/

/-- The body of `allocate_by_quantity`'s loop (also `allocate_by_ratio`'s:
the two loops are textually identical): `allocated` is the running
`allocated_sum`; the last item receives `total - allocated`. -/
def allocGo (total totalQty allocated : ℚ) : List (String × ℚ) → List (String × ℚ)
  | [] => []
  | (k, q) :: rest =>
    if rest.isEmpty then
      [(k, total - allocated)]
    else
      let amount := round4 (total * q / totalQty)
      (k, amount) :: allocGo total totalQty (allocated + amount) rest

/-- `allocate_by_quantity(total_budget, quantities)` from allocation.py:
if the quantities sum to zero, every item gets 0; otherwise each non-last
item gets its rounded proportional share and the last the exact remainder. -/
def allocate_by_quantity (total_budget : ℚ) (quantities : List (String × ℚ)) :
    List (String × ℚ) :=
  if (quantities.map Prod.snd).sum = 0 then quantities.map (fun p => (p.1, 0))
  else allocGo total_budget ((quantities.map Prod.snd).sum) 0 quantities

/-- `allocate_by_ratio(total_budget, ratios)` from allocation.py: identical
loop with ratios in place of quantities. -/
def allocate_by_ratio (total_budget : ℚ) (ratios : List (String × ℚ)) :
    List (String × ℚ) :=
  if (ratios.map Prod.snd).sum = 0 then ratios.map (fun p => (p.1, 0))
  else allocGo total_budget ((ratios.map Prod.snd).sum) 0 ratios

/-! ## allocation.py: rules, bases, rule-based allocation -/

/-- AllocationBasis enum from models/master.py. -/
inductive AllocationBasis
  | production_hours
  | raw_material_quantity
  | crude_quantity
  | weight_based
  | manual
deriving DecidableEq, Repr

/-- AllocationRuleTarget from models/master.py: (target cost center, ratio). -/
structure RuleTarget where
  target_cost_center_id : String
  ratio : ℚ
deriving DecidableEq, Repr

/-- AllocationRule from models/master.py. -/
structure AllocationRule where
  id : String
  source_cost_center_id : String
  cost_element : Option String
  basis : AllocationBasis
  priority : Int
  is_active : Bool
  targets : List RuleTarget
deriving DecidableEq, Repr

/-- Python dict construction from a key-value sequence: first occurrence
fixes a key's position, the last occurrence fixes its value. -/
def dictInsert {α : Type} (d : List (String × α)) (k : String) (v : α) :
    List (String × α) :=
  if d.any (fun p => p.1 == k) then d.map (fun p => if p.1 == k then (k, v) else p)
  else d ++ [(k, v)]

/-- Fold `dictInsert` over a list: the association list a Python dict
comprehension over that list denotes. -/
def dictOfList {α : Type} (l : List (String × α)) : List (String × α) :=
  l.foldl (fun d p => dictInsert d p.1 p.2) []

/-- `load_allocation_rules` from allocation.py: active rules of the source
cost center, ordered by priority descending. -/
def load_allocation_rules (rules : List AllocationRule)
    (source_cost_center_id : String) : List AllocationRule :=
  (rules.filter (fun r =>
    r.source_cost_center_id == source_cost_center_id && r.is_active)).mergeSort
    (fun a b => decide (b.priority ≤ a.priority))

/-- The loop of `_find_matching_rule`: `wildcard` is the `wildcard_rule`
variable (first NULL-element rule seen so far). -/
def findMatchingRuleGo (ce : String) (wildcard : Option AllocationRule) :
    List AllocationRule → Option AllocationRule
  | [] => wildcard
  | r :: rest =>
    if r.cost_element = some ce then some r
    else if r.cost_element = none ∧ wildcard = none then
      findMatchingRuleGo ce (some r) rest
    else findMatchingRuleGo ce wildcard rest

/-- `_find_matching_rule(rules, cost_element)` from allocation.py: first
exact `cost_element` match, else the first wildcard (NULL) rule, else none. -/
def find_matching_rule (rules : List AllocationRule) (cost_element : String) :
    Option AllocationRule :=
  findMatchingRuleGo cost_element none rules

/-- The per-item metric dict `{raw_material_quantity, weight, crude_quantity,
production_hours}` that `compute_allocation_quantities` reads. Absent keys
read as 0 (`data.get(..., 0)`), absent hours as None. -/
structure ItemData where
  raw_material_quantity : ℚ := 0
  weight : ℚ := 0
  crude_quantity : ℚ := 0
  production_hours : Option ℚ := none
deriving DecidableEq, Repr

/-- `compute_allocation_quantities(basis, item_data)` from allocation.py. -/
def compute_allocation_quantities (basis : AllocationBasis)
    (item_data : List (String × ItemData)) : List (String × ℚ) :=
  item_data.map (fun p =>
    (p.1,
      match basis with
      | .raw_material_quantity => p.2.raw_material_quantity
      | .weight_based => p.2.weight
      | .crude_quantity => p.2.crude_quantity
      | .production_hours =>
        match p.2.production_hours with
        | some h => if 0 < h then h else p.2.raw_material_quantity
        | none => p.2.raw_material_quantity
      | .manual => 0))

/-- CostElement enum values from models/cost.py, as `element_map`'s keys in
`_create_allocation_records`. -/
def costElementNames : List String :=
  ["material", "crude_product", "packaging", "labor", "overhead",
    "outsourcing", "prior_process"]

/-- A CostAllocation audit row from models/cost.py, as written by
`_create_allocation_records`. -/
structure CostAllocationRow where
  rule_id : String
  period_id : String
  source_cost_center_id : String
  target_cost_center_id : String
  cost_element : Option String
  allocated_amount : ℚ
  basis_quantity : ℚ
  ratio : ℚ
deriving DecidableEq, Repr

/-- `_create_allocation_records` from allocation.py: one audit row per
non-zero allocated item, with the item's basis quantity and its half-up
rounded ratio of the total quantity (0 when the total is 0). -/
def create_allocation_records (rule : AllocationRule) (period_id : String)
    (source_cost_center_id : String) (cost_element : String)
    (allocation : List (String × ℚ)) (quantities : List (String × ℚ)) :
    List CostAllocationRow :=
  let total_qty := (quantities.map Prod.snd).sum
  let ce : Option String :=
    if cost_element ∈ costElementNames then some cost_element else none
  (allocation.filter (fun p => !(p.2 == 0))).map (fun p =>
    let qty := (quantities.lookup p.1).getD 0
    { rule_id := rule.id
      period_id := period_id
      source_cost_center_id := source_cost_center_id
      target_cost_center_id := source_cost_center_id
      cost_element := ce
      allocated_amount := p.2
      basis_quantity := qty
      ratio := if 0 < total_qty then round4 (qty / total_qty) else 0 })

/-- The `allocation` local of `execute_rule_based_allocation`'s non-zero
budget branch: manual rules use their target-ratio dict (falling back to
the default basis when no targets are configured); other rules use
quantities of their basis; no rule falls back to the default basis. -/
def execAllocationOf (rules : List AllocationRule)
    (item_data : List (String × ItemData)) (default_basis : AllocationBasis)
    (cost_element : String) (budget_amount : ℚ) : List (String × ℚ) :=
  match find_matching_rule rules cost_element with
  | some rule =>
    if rule.basis = .manual then
      let target_ratios :=
        dictOfList (rule.targets.map (fun t => (t.target_cost_center_id, t.ratio)))
      if target_ratios.isEmpty then
        allocate_by_quantity budget_amount
          (compute_allocation_quantities default_basis item_data)
      else allocate_by_ratio budget_amount target_ratios
    else
      allocate_by_quantity budget_amount
        (compute_allocation_quantities rule.basis item_data)
  | none =>
    allocate_by_quantity budget_amount
      (compute_allocation_quantities default_basis item_data)

/-- One iteration of `execute_rule_based_allocation`'s loop over
`budgets.items()`: the state is (CostAllocation rows added so far, result
entries so far). -/
def execAllocStep (rules : List AllocationRule) (source_cost_center_id : String)
    (item_data : List (String × ItemData)) (period_id : Option String)
    (simulate : Bool) (default_basis : AllocationBasis)
    (st : List CostAllocationRow × List (String × List (String × ℚ)))
    (be : String × ℚ) :
    List CostAllocationRow × List (String × List (String × ℚ)) :=
  let cost_element := be.1
  let budget_amount := be.2
  if budget_amount = 0 then
    (st.1, st.2 ++ [(cost_element, item_data.map (fun p => (p.1, (0 : ℚ))))])
  else
    let matching_rule := find_matching_rule rules cost_element
    let allocation := execAllocationOf rules item_data default_basis cost_element
      budget_amount
    let newRows :=
      match simulate, period_id, matching_rule with
      | false, some pid, some rule =>
        create_allocation_records rule pid source_cost_center_id cost_element
          allocation
          (compute_allocation_quantities
            (if rule.basis = .manual then default_basis else rule.basis) item_data)
      | _, _, _ => []
    (st.1 ++ newRows, st.2 ++ [(cost_element, allocation)])

/-- `execute_rule_based_allocation` from allocation.py, over an explicit rule
table in place of the session: returns the CostAllocation rows it adds and
the `{cost_element: {item: amount}}` result. -/
def execute_rule_based_allocation (rules : List AllocationRule)
    (source_cost_center_id : String) (budgets : List (String × ℚ))
    (item_data : List (String × ItemData)) (period_id : Option String)
    (simulate : Bool) (default_basis : AllocationBasis) :
    List CostAllocationRow × List (String × List (String × ℚ)) :=
  let active := load_allocation_rules rules source_cost_center_id
  budgets.foldl
    (execAllocStep active source_cost_center_id item_data period_id simulate
      default_basis)
    ([], [])

/-! ## cost_calculation.py: data model -/

/-- Material from models/master.py (the fields the calculator reads). -/
structure Material where
  id : String
  category : Option String
  standard_unit_price : ℚ
  is_active : Bool
deriving DecidableEq, Repr

/-- CrudeProduct from models/master.py (the fields the calculator reads). -/
structure CrudeProd where
  id : String
  is_blend : Bool
  is_active : Bool
deriving DecidableEq, Repr

/-- Product from models/master.py (the fields the calculator reads).
`content_weight_g` is nullable; `standard_lot_size` is a non-null decimal. -/
structure ProductRec where
  id : String
  content_weight_g : Option ℚ
  standard_lot_size : ℚ
  is_active : Bool
deriving DecidableEq, Repr

/-- BomLine from models/master.py: references exactly one of material /
crude product, with quantity and loss rate. -/
structure BomLine where
  material_id : Option String
  crude_product_id : Option String
  quantity : ℚ
  loss_rate : ℚ
deriving DecidableEq, Repr

/-- BomType enum from models/master.py. -/
inductive BomType
  | raw_material_process
  | product_process
deriving DecidableEq, Repr

/-- BomHeader from models/master.py (the fields the calculator reads). -/
structure BomHeader where
  bom_type : BomType
  crude_product_id : Option String
  product_id : Option String
  effective_date : ℤ
  is_active : Bool
  lines : List BomLine
deriving DecidableEq, Repr

/-- CostCenterType enum from models/master.py. -/
inductive CostCenterType
  | manufacturing
  | product
  | indirect
deriving DecidableEq, Repr

/-- CostCenter from models/master.py. -/
structure CostCenterRec where
  id : String
  center_type : CostCenterType
deriving DecidableEq, Repr

/-- CostBudget from models/master.py. -/
structure CostBudget where
  cost_center_id : String
  period_id : String
  labor_budget : ℚ
  overhead_budget : ℚ
  outsourcing_budget : ℚ
deriving DecidableEq, Repr

/-- One entry of the `crude_cost_results` dict calculate_standard_costs
builds during Stage 1. -/
structure CrudeCalcResult where
  crude_product_id : String
  period_id : String
  material_cost : ℚ
  labor_cost : ℚ
  overhead_cost : ℚ
  prior_process_cost : ℚ
  total_cost : ℚ
  unit_cost : ℚ
  standard_quantity : ℚ
deriving DecidableEq, Repr

/-- One entry of the `product_cost_results` dict built during Stage 2. -/
structure ProductCalcResult where
  product_id : String
  period_id : String
  crude_product_cost : ℚ
  packaging_cost : ℚ
  labor_cost : ℚ
  overhead_cost : ℚ
  outsourcing_cost : ℚ
  total_cost : ℚ
  unit_cost : ℚ
  lot_size : ℚ
deriving DecidableEq, Repr

/-- A CrudeProductStandardCost row from models/cost.py; (crude_product_id,
period_id) is unique. -/
structure CrudeCostRow where
  crude_product_id : String
  period_id : String
  material_cost : ℚ
  labor_cost : ℚ
  overhead_cost : ℚ
  prior_process_cost : ℚ
  total_cost : ℚ
  unit_cost : ℚ
  standard_quantity : ℚ
  notes : Option String
deriving DecidableEq, Repr

/-- A StandardCost row from models/cost.py; (product_id, period_id) is
unique. -/
structure StandardCostRow where
  product_id : String
  period_id : String
  crude_product_cost : ℚ
  packaging_cost : ℚ
  labor_cost : ℚ
  overhead_cost : ℚ
  outsourcing_cost : ℚ
  total_cost : ℚ
  unit_cost : ℚ
  lot_size : ℚ
  notes : Option String
deriving DecidableEq, Repr

/-- An ActualCost row from models/cost.py; (product_id, cost_center_id,
period_id) is unique, so a product may have several rows per period and
even several per source system. -/
structure ActualCostRow where
  product_id : String
  cost_center_id : String
  period_id : String
  crude_product_cost : ℚ
  packaging_cost : ℚ
  labor_cost : ℚ
  overhead_cost : ℚ
  outsourcing_cost : ℚ
  total_cost : ℚ
  source_system : String
deriving DecidableEq, Repr

/-- ReconciliationStatus enum from models/audit.py. -/
inductive ReconStatus
  | matched
  | unmatched
  | discrepancy
deriving DecidableEq, Repr

/-- A ReconciliationResult row from models/audit.py (the fields
reconcile_period writes). -/
structure ReconRow where
  period_id : String
  entity_id : String
  value_a : Option ℚ
  value_b : Option ℚ
  difference : Option ℚ
  status : ReconStatus
  notes : Option String
deriving DecidableEq, Repr

/-- The database state the services read and write, one field per table the
core touches (master data is read-only to the core). -/
structure DB where
  materials : List Material
  crude_products : List CrudeProd
  products : List ProductRec
  bom_headers : List BomHeader
  cost_centers : List CostCenterRec
  cost_budgets : List CostBudget
  allocation_rules : List AllocationRule
  fiscal_periods : List String
  crude_standard_costs : List CrudeCostRow
  standard_costs : List StandardCostRow
  cost_allocations : List CostAllocationRow
  actual_costs : List ActualCostRow
  recon_results : List ReconRow
deriving DecidableEq, Repr

/-- The caller-supplied override of one cost center's budgets
(`budget_changes` entries). -/
structure BudgetChange where
  labor_budget : Option ℚ := none
  overhead_budget : Option ℚ := none
  outsourcing_budget : Option ℚ := none
deriving DecidableEq, Repr

/-- The `overrides` argument of calculate_standard_costs. -/
structure Overrides where
  material_prices : List (String × ℚ) := []
  budget_changes : List (String × BudgetChange) := []
  category_rate_changes : List (String × ℚ) := []
deriving DecidableEq, Repr

/-! ## cost_calculation.py: helpers -/

/-- `_resolve_material_price`: individual override > category rate (half-up
rounded product) > standard unit price. -/
def resolve_material_price (mat : Material)
    (material_price_overrides : List (String × ℚ))
    (category_rate_changes : List (String × ℚ)) : ℚ :=
  match material_price_overrides.lookup mat.id with
  | some p => p
  | none =>
    match mat.category with
    | some cat =>
      match category_rate_changes.lookup cat with
      | some rate => round4 (mat.standard_unit_price * rate)
      | none => mat.standard_unit_price
    | none => mat.standard_unit_price

/-- `_load_bom_headers`: active headers of the given type ordered by
effective date descending. -/
def load_bom_headers (db : DB) (bt : BomType) : List BomHeader :=
  (db.bom_headers.filter (fun b => decide (b.bom_type = bt) && b.is_active)).mergeSort
    (fun a b => decide (b.effective_date ≤ a.effective_date))

/-- `_load_budgets`: the budget row of the period whose cost center has the
given type (`scalar_one_or_none`; the schema assumes at most one). -/
def load_budgets (db : DB) (period_id : String) (ct : CostCenterType) :
    Option CostBudget :=
  (db.cost_budgets.filter (fun cb =>
    cb.period_id == period_id &&
      ((db.cost_centers.find? (fun cc => cc.id == cb.cost_center_id)).map
        (fun cc => decide (cc.center_type = ct))).getD false)).head?

/-- The grouping loops `cp_bom_map` / `prod_bom_map`: group headers by owner
id, keeping only the first header seen per owner (`if cp_id not in map`). -/
def groupFirst (key : BomHeader → Option String)
    (acc : List (String × BomHeader)) : List BomHeader → List (String × BomHeader)
  | [] => acc
  | b :: rest =>
    match key b with
    | some k =>
      if acc.any (fun p => p.1 == k) then groupFirst key acc rest
      else groupFirst key (acc ++ [(k, b)]) rest
    | none => groupFirst key acc rest

/-- A crude product's standard quantity: `quantity * (1 + loss_rate)` summed
over its BOM's material lines. -/
def bomMaterialQuantity (lines : List BomLine) : ℚ :=
  (lines.map (fun line =>
    if line.material_id.isSome then line.quantity * (1 + line.loss_rate) else 0)).sum

/-- Budget figures with the caller's override applied (Stage 1 reads labor
and overhead; Stage 2 also outsourcing). -/
def appliedBudget (budget : Option CostBudget)
    (budget_changes : List (String × BudgetChange)) : ℚ × ℚ × ℚ :=
  match budget with
  | none => (0, 0, 0)
  | some b =>
    match budget_changes.lookup b.cost_center_id with
    | some bc =>
      (bc.labor_budget.getD b.labor_budget,
        bc.overhead_budget.getD b.overhead_budget,
        bc.outsourcing_budget.getD b.outsourcing_budget)
    | none => (b.labor_budget, b.overhead_budget, b.outsourcing_budget)

/-! ## cost_calculation.py: Stage 1 -/

/-- Sort bit of the Stage-1 loop's key
`(1 if crude_products.get(cid) and crude_products[cid].is_blend else 0, cid)`. -/
def blendBit (crude_products : List CrudeProd) (cid : String) : ℕ :=
  match crude_products.find? (fun cp => cp.id == cid) with
  | some cp => if cp.is_blend then 1 else 0
  | none => 0

/-- The Stage-1 processing order: non-blend first, then by id. -/
def cpSortLe (crude_products : List CrudeProd) (a b : String) : Bool :=
  decide (blendBit crude_products a < blendBit crude_products b) ||
    (blendBit crude_products a == blendBit crude_products b && decide (a ≤ b))

/-- The inputs of the Stage-1 loop over sorted crude-product ids. -/
structure Stage1Env where
  materials : List Material
  crude_products : List CrudeProd
  ov : Overrides
  labor_alloc : List (String × ℚ)
  overhead_alloc : List (String × ℚ)
  cp_std_quantities : List (String × ℚ)
  cp_bom_map : List (String × List BomLine)
  period_id : String

/-- The Stage-1 line loop: material lines add the half-up rounded
`price * quantity * (1 + loss_rate)` to the material cost; crude lines add
the rounded `already-computed unit cost * quantity` to the prior-process
cost (skipped when the source is not in `crude_cost_results` yet). -/
def stage1LineCosts (env : Stage1Env)
    (results : List (String × CrudeCalcResult)) (lines : List BomLine) : ℚ × ℚ :=
  lines.foldl (fun acc line =>
    match line.material_id with
    | some mid =>
      match env.materials.find? (fun m => m.id == mid) with
      | some mat =>
        (acc.1 + round4 (resolve_material_price mat env.ov.material_prices
          env.ov.category_rate_changes * line.quantity * (1 + line.loss_rate)),
          acc.2)
      | none => acc
    | none =>
      match line.crude_product_id with
      | some src =>
        match results.lookup src with
        | some r => (acc.1, acc.2 + round4 (r.unit_cost * line.quantity))
        | none => acc
      | none => acc) (0, 0)

/-- Stage-1 unit cost: total over standard quantity rounded half-up, zero
unless the standard quantity is positive. -/
def stage1UnitCost (total std_qty : ℚ) : ℚ :=
  if 0 < std_qty then round4 (total / std_qty) else 0

/-- One iteration of the Stage-1 loop `for cp_id in sorted_cp_ids`: skips
ids missing from the crude-product table, otherwise appends the computed
`crude_cost_results` entry. -/
def stage1Step (env : Stage1Env) (results : List (String × CrudeCalcResult))
    (cp_id : String) : List (String × CrudeCalcResult) :=
  match env.crude_products.find? (fun cp => cp.id == cp_id) with
  | none => results
  | some _ =>
    match env.cp_bom_map.lookup cp_id with
    | none => results
    | some lines =>
      let mc_ppc := stage1LineCosts env results lines
      let labor := (env.labor_alloc.lookup cp_id).getD 0
      let overhead := (env.overhead_alloc.lookup cp_id).getD 0
      let total := mc_ppc.1 + labor + overhead + mc_ppc.2
      let std_qty := (env.cp_std_quantities.lookup cp_id).getD 1
      results ++ [(cp_id,
        { crude_product_id := cp_id
          period_id := env.period_id
          material_cost := mc_ppc.1
          labor_cost := labor
          overhead_cost := overhead
          prior_process_cost := mc_ppc.2
          total_cost := total
          unit_cost := stage1UnitCost total std_qty
          standard_quantity := std_qty })]

/-- The whole Stage-1 loop: crude products sorted non-blend first then by
id, folded into `crude_cost_results`. -/
def calcStage1 (env : Stage1Env) : List (String × CrudeCalcResult) :=
  (((env.cp_bom_map.map Prod.fst).mergeSort (cpSortLe env.crude_products)).foldl
    (stage1Step env) [])

/-! ## cost_calculation.py: Stage 2 -/

/-- The inputs of the Stage-2 loop over `prod_bom_map`. -/
structure Stage2Env where
  materials : List Material
  all_products : List ProductRec
  ov : Overrides
  crude_cost_results : List (String × CrudeCalcResult)
  labor_alloc : List (String × ℚ)
  overhead_alloc : List (String × ℚ)
  outsourcing_alloc : List (String × ℚ)
  period_id : String

/-- The Stage-2 line loop: crude lines add the rounded
`crude unit cost * quantity` to the crude-product cost, material lines the
rounded `price * quantity * (1 + loss_rate)` to the packaging cost. -/
def stage2LineCosts (env : Stage2Env) (lines : List BomLine) : ℚ × ℚ :=
  lines.foldl (fun acc line =>
    match line.crude_product_id with
    | some cid =>
      match env.crude_cost_results.lookup cid with
      | some r => (acc.1 + round4 (r.unit_cost * line.quantity), acc.2)
      | none => acc
    | none =>
      match line.material_id with
      | some mid =>
        match env.materials.find? (fun m => m.id == mid) with
        | some mat =>
          (acc.1, acc.2 + round4 (resolve_material_price mat env.ov.material_prices
            env.ov.category_rate_changes * line.quantity * (1 + line.loss_rate)))
        | none => acc
      | none => acc) (0, 0)

/-- Stage-2 lot size: `prod.standard_lot_size if prod.standard_lot_size and
prod.standard_lot_size > 0 else 1`. -/
def stage2LotSize (lot : ℚ) : ℚ :=
  if 0 < lot then lot else 1

/-- Stage-2 allocation weight of one product: its `content_weight_g` when
set and truthy, else the sum of its BOM line quantities (1 when that sum is
not positive). -/
def stage2AllocWeight (all_products : List ProductRec) (p_id : String)
    (lines : List BomLine) : ℚ :=
  let fallbackW :=
    let total_qty := (lines.map (fun line => line.quantity)).sum
    if 0 < total_qty then total_qty else 1
  match all_products.find? (fun pr => pr.id == p_id) with
  | some prod =>
    match prod.content_weight_g with
    | some w => if w ≠ 0 then w else fallbackW
    | none => fallbackW
  | none => fallbackW

/-- One iteration of the Stage-2 loop `for p_id, bom in prod_bom_map`: skips
ids missing from the product table, otherwise appends the computed
`product_cost_results` entry. -/
def stage2Step (env : Stage2Env) (results : List (String × ProductCalcResult))
    (pb : String × List BomLine) : List (String × ProductCalcResult) :=
  match env.all_products.find? (fun pr => pr.id == pb.1) with
  | none => results
  | some prod =>
    let cc_pc := stage2LineCosts env pb.2
    let labor := (env.labor_alloc.lookup pb.1).getD 0
    let overhead := (env.overhead_alloc.lookup pb.1).getD 0
    let outsourcing := (env.outsourcing_alloc.lookup pb.1).getD 0
    let total := cc_pc.1 + cc_pc.2 + labor + overhead + outsourcing
    let lot_size := stage2LotSize prod.standard_lot_size
    results ++ [(pb.1,
      { product_id := pb.1
        period_id := env.period_id
        crude_product_cost := cc_pc.1
        packaging_cost := cc_pc.2
        labor_cost := labor
        overhead_cost := overhead
        outsourcing_cost := outsourcing
        total_cost := total
        unit_cost := round4 (total / lot_size)
        lot_size := lot_size })]

/-- The whole Stage-2 loop over `prod_bom_map` in map order. -/
def calcStage2 (env : Stage2Env) (prod_bom_map : List (String × List BomLine)) :
    List (String × ProductCalcResult) :=
  prod_bom_map.foldl (stage2Step env) []

/-! ## cost_calculation.py: calculate_standard_costs assembled -/

/-- Stage 1's `cp_bom_map`, reduced to each crude product's BOM lines. -/
def cpBomMapOf (db : DB) : List (String × List BomLine) :=
  (groupFirst (fun b => b.crude_product_id) []
    (load_bom_headers db .raw_material_process)).map (fun p => (p.1, p.2.lines))

/-- Stage 2's `prod_bom_map`, filtered to the caller's product subset when
one is given (Python skips the filter for a falsy — empty — list). -/
def prodBomMapOf (db : DB) (product_ids : Option (List String)) :
    List (String × List BomLine) :=
  let m := (groupFirst (fun b => b.product_id) []
    (load_bom_headers db .product_process)).map (fun p => (p.1, p.2.lines))
  match product_ids with
  | some pids => if pids.isEmpty then m else m.filter (fun p => pids.contains p.1)
  | none => m

/-- Stage 1's labor/overhead allocation: rule-based via the manufacturing
cost center when its budget row exists, else plain quantity allocation of
the (zero) figures. Returns the CostAllocation rows added and the two
allocation maps. -/
def stage1Allocation (db : DB) (period_id : String) (simulate : Bool)
    (ov : Overrides) :
    List CostAllocationRow × (List (String × ℚ) × List (String × ℚ)) :=
  let cp_bom_map := cpBomMapOf db
  let cp_std_quantities := cp_bom_map.map (fun p => (p.1, bomMaterialQuantity p.2))
  let cp_item_data : List (String × ItemData) := cp_bom_map.map (fun p =>
    (p.1, { raw_material_quantity := bomMaterialQuantity p.2 }))
  let mfg_budget := load_budgets db period_id .manufacturing
  let lo := appliedBudget mfg_budget ov.budget_changes
  match mfg_budget with
  | some b =>
    let ra := execute_rule_based_allocation db.allocation_rules b.cost_center_id
      [("labor", lo.1), ("overhead", lo.2.1)] cp_item_data (some period_id)
      simulate .raw_material_quantity
    (ra.1, ((ra.2.lookup "labor").getD [], (ra.2.lookup "overhead").getD []))
  | none =>
    ([], (allocate_by_quantity lo.1 cp_std_quantities,
      allocate_by_quantity lo.2.1 cp_std_quantities))

/-- Stage 1's environment as calculate_standard_costs assembles it. -/
def stage1EnvOf (db : DB) (period_id : String) (simulate : Bool)
    (ov : Overrides) : Stage1Env :=
  let alloc := (stage1Allocation db period_id simulate ov).2
  { materials := db.materials.filter (fun m => m.is_active)
    crude_products := db.crude_products.filter (fun cp => cp.is_active)
    ov := ov
    labor_alloc := alloc.1
    overhead_alloc := alloc.2
    cp_std_quantities := (cpBomMapOf db).map (fun p => (p.1, bomMaterialQuantity p.2))
    cp_bom_map := cpBomMapOf db
    period_id := period_id }

/-- The `crude_cost_results` dict of a calculate_standard_costs call. -/
def crudeResultsOf (db : DB) (period_id : String) (simulate : Bool)
    (ov : Overrides) : List (String × CrudeCalcResult) :=
  calcStage1 (stage1EnvOf db period_id simulate ov)

/-- Stage 2's labor/overhead/outsourcing allocation, like Stage 1's but for
the product cost center with weight-based default. -/
def stage2Allocation (db : DB) (period_id : String)
    (product_ids : Option (List String)) (simulate : Bool) (ov : Overrides) :
    List CostAllocationRow ×
      (List (String × ℚ) × List (String × ℚ) × List (String × ℚ)) :=
  let prod_bom_map := prodBomMapOf db product_ids
  let all_products := db.products.filter (fun pr => pr.is_active)
  let prod_alloc_quantities := prod_bom_map.map (fun p =>
    (p.1, stage2AllocWeight all_products p.1 p.2))
  let prod_item_data : List (String × ItemData) := prod_bom_map.map (fun p =>
    let w := stage2AllocWeight all_products p.1 p.2
    (p.1, { weight := w, raw_material_quantity := w }))
  let prd_budget := load_budgets db period_id .product
  let lo := appliedBudget prd_budget ov.budget_changes
  match prd_budget with
  | some b =>
    let ra := execute_rule_based_allocation db.allocation_rules b.cost_center_id
      [("labor", lo.1), ("overhead", lo.2.1), ("outsourcing", lo.2.2)]
      prod_item_data (some period_id) simulate .weight_based
    (ra.1, ((ra.2.lookup "labor").getD [], (ra.2.lookup "overhead").getD [],
      (ra.2.lookup "outsourcing").getD []))
  | none =>
    ([], (allocate_by_quantity lo.1 prod_alloc_quantities,
      allocate_by_quantity lo.2.1 prod_alloc_quantities,
      allocate_by_quantity lo.2.2 prod_alloc_quantities))

/-- The `product_cost_results` dict of a calculate_standard_costs call. -/
def productResultsOf (db : DB) (period_id : String)
    (product_ids : Option (List String)) (simulate : Bool) (ov : Overrides) :
    List (String × ProductCalcResult) :=
  let alloc := (stage2Allocation db period_id product_ids simulate ov).2
  calcStage2
    { materials := db.materials.filter (fun m => m.is_active)
      all_products := db.products.filter (fun pr => pr.is_active)
      ov := ov
      crude_cost_results := crudeResultsOf db period_id simulate ov
      labor_alloc := alloc.1
      overhead_alloc := alloc.2.1
      outsourcing_alloc := alloc.2.2
      period_id := period_id }
    (prodBomMapOf db product_ids)

/-- Replace the first list element satisfying `p` by its image under `f`
(the in-place `setattr` update of the unique row a query found). -/
def updateFirst {α : Type} (p : α → Bool) (f : α → α) : List α → List α
  | [] => []
  | x :: xs => if p x then f x :: xs else x :: updateFirst p f xs

/-- The (item, period) unique-key predicate of CrudeProductStandardCost. -/
def crudeKeyMatch (cp period : String) (r : CrudeCostRow) : Bool :=
  r.crude_product_id == cp && r.period_id == period

/-- The (item, period) unique-key predicate of StandardCost. -/
def productKeyMatch (pid period : String) (r : StandardCostRow) : Bool :=
  r.product_id == pid && r.period_id == period

/-- Overwrite an existing CrudeProductStandardCost row's cost fields with a
computed result (every dict key except the two id keys). -/
def applyCrude (d : CrudeCalcResult) (r : CrudeCostRow) : CrudeCostRow :=
  { r with
    material_cost := d.material_cost
    labor_cost := d.labor_cost
    overhead_cost := d.overhead_cost
    prior_process_cost := d.prior_process_cost
    total_cost := d.total_cost
    unit_cost := d.unit_cost
    standard_quantity := d.standard_quantity }

/-- A fresh CrudeProductStandardCost row from a computed result. -/
def newCrudeRow (d : CrudeCalcResult) : CrudeCostRow :=
  { crude_product_id := d.crude_product_id
    period_id := d.period_id
    material_cost := d.material_cost
    labor_cost := d.labor_cost
    overhead_cost := d.overhead_cost
    prior_process_cost := d.prior_process_cost
    total_cost := d.total_cost
    unit_cost := d.unit_cost
    standard_quantity := d.standard_quantity
    notes := none }

/-- Overwrite an existing StandardCost row's cost fields with a computed
result. -/
def applyProduct (d : ProductCalcResult) (r : StandardCostRow) : StandardCostRow :=
  { r with
    crude_product_cost := d.crude_product_cost
    packaging_cost := d.packaging_cost
    labor_cost := d.labor_cost
    overhead_cost := d.overhead_cost
    outsourcing_cost := d.outsourcing_cost
    total_cost := d.total_cost
    unit_cost := d.unit_cost
    lot_size := d.lot_size }

/-- A fresh StandardCost row from a computed result. -/
def newProductRow (d : ProductCalcResult) : StandardCostRow :=
  { product_id := d.product_id
    period_id := d.period_id
    crude_product_cost := d.crude_product_cost
    packaging_cost := d.packaging_cost
    labor_cost := d.labor_cost
    overhead_cost := d.overhead_cost
    outsourcing_cost := d.outsourcing_cost
    total_cost := d.total_cost
    unit_cost := d.unit_cost
    lot_size := d.lot_size
    notes := none }

/-- Upsert one computed crude result by its (item, period) key: update the
existing row in place, else insert a new one. Also returns the persisted
row (the refreshed record the service collects). -/
def upsertCrude (table : List CrudeCostRow) (d : CrudeCalcResult) :
    List CrudeCostRow × CrudeCostRow :=
  match table.find? (crudeKeyMatch d.crude_product_id d.period_id) with
  | some r =>
    (updateFirst (crudeKeyMatch d.crude_product_id d.period_id) (applyCrude d) table,
      applyCrude d r)
  | none => (table ++ [newCrudeRow d], newCrudeRow d)

/-- Upsert one computed product result by its (item, period) key. -/
def upsertProduct (table : List StandardCostRow) (d : ProductCalcResult) :
    List StandardCostRow × StandardCostRow :=
  match table.find? (productKeyMatch d.product_id d.period_id) with
  | some r =>
    (updateFirst (productKeyMatch d.product_id d.period_id) (applyProduct d) table,
      applyProduct d r)
  | none => (table ++ [newProductRow d], newProductRow d)

/-- The save loop over `crude_cost_results.values()`: upsert each result,
collecting the persisted records. -/
def persistCrude (table : List CrudeCostRow) :
    List CrudeCalcResult → List CrudeCostRow × List CrudeCostRow
  | [] => (table, [])
  | d :: ds =>
    let td := upsertCrude table d
    let rest := persistCrude td.1 ds
    (rest.1, td.2 :: rest.2)

/-- The save loop over `product_cost_results.values()`. -/
def persistProduct (table : List StandardCostRow) :
    List ProductCalcResult → List StandardCostRow × List StandardCostRow
  | [] => (table, [])
  | d :: ds =>
    let td := upsertProduct table d
    let rest := persistProduct td.1 ds
    (rest.1, td.2 :: rest.2)

/-- The dict calculate_standard_costs returns. `crude_cost_records` /
`product_cost_records` are the persisted records (empty when simulating;
the service then returns the computed dict values instead). -/
structure CalcOutput where
  period_id : String
  crude_products_calculated : ℕ
  products_calculated : ℕ
  total_crude_product_cost : ℚ
  total_product_cost : ℚ
  crude_cost_results : List (String × CrudeCalcResult)
  product_cost_results : List (String × ProductCalcResult)
  crude_cost_records : List CrudeCostRow
  product_cost_records : List StandardCostRow
deriving DecidableEq, Repr

/-- `calculate_standard_costs(db, period_id, product_ids, simulate,
overrides)` from cost_calculation.py: both stages, then persistence unless
simulating. Returns the final database state and the result dict. -/
def calculate_standard_costs (db : DB) (period_id : String)
    (product_ids : Option (List String)) (simulate : Bool) (ov : Overrides) :
    DB × CalcOutput :=
  let audit1 := (stage1Allocation db period_id simulate ov).1
  let crude_results := crudeResultsOf db period_id simulate ov
  let audit2 := (stage2Allocation db period_id product_ids simulate ov).1
  let product_results := productResultsOf db period_id product_ids simulate ov
  let pc := if simulate then (db.crude_standard_costs, [])
    else persistCrude db.crude_standard_costs (crude_results.map Prod.snd)
  let pp := if simulate then (db.standard_costs, [])
    else persistProduct db.standard_costs (product_results.map Prod.snd)
  ({ db with
      cost_allocations := db.cost_allocations ++ audit1 ++ audit2
      crude_standard_costs := pc.1
      standard_costs := pp.1 },
    { period_id := period_id
      crude_products_calculated := crude_results.length
      products_calculated := product_results.length
      total_crude_product_cost := (crude_results.map (fun p => p.2.total_cost)).sum
      total_product_cost := (product_results.map (fun p => p.2.total_cost)).sum
      crude_cost_results := crude_results
      product_cost_results := product_results
      crude_cost_records := pc.2
      product_cost_records := pp.2 })

/-! ## cost_calculation.py: copy_standard_costs -/

/-- The six counters copy_standard_costs returns. -/
structure CopyCounters where
  crude_product_costs_copied : ℕ
  crude_product_costs_skipped : ℕ
  crude_product_costs_updated : ℕ
  product_costs_copied : ℕ
  product_costs_skipped : ℕ
  product_costs_updated : ℕ
deriving DecidableEq, Repr

/-- The state of one copy loop: the evolving table and its three tallies. -/
structure CopySt (ρ : Type) where
  table : List ρ
  copied : ℕ
  skipped : ℕ
  updated : ℕ
deriving Repr

/-- Overwrite a target CrudeProductStandardCost row's copied columns from a
source row (the tuple of columns the copy loop iterates). -/
def copyCrudeApply (src : CrudeCostRow) (r : CrudeCostRow) : CrudeCostRow :=
  { r with
    material_cost := src.material_cost
    labor_cost := src.labor_cost
    overhead_cost := src.overhead_cost
    prior_process_cost := src.prior_process_cost
    total_cost := src.total_cost
    unit_cost := src.unit_cost
    standard_quantity := src.standard_quantity
    notes := src.notes }

/-- A fresh target-period CrudeProductStandardCost row copied from a source
row. -/
def copyCrudeNew (src : CrudeCostRow) (target_period_id : String) : CrudeCostRow :=
  { src with period_id := target_period_id }

/-- Overwrite a target StandardCost row's copied columns from a source row. -/
def copyProductApply (src : StandardCostRow) (r : StandardCostRow) : StandardCostRow :=
  { r with
    crude_product_cost := src.crude_product_cost
    packaging_cost := src.packaging_cost
    labor_cost := src.labor_cost
    overhead_cost := src.overhead_cost
    outsourcing_cost := src.outsourcing_cost
    total_cost := src.total_cost
    unit_cost := src.unit_cost
    lot_size := src.lot_size
    notes := src.notes }

/-- A fresh target-period StandardCost row copied from a source row. -/
def copyProductNew (src : StandardCostRow) (target_period_id : String) : StandardCostRow :=
  { src with period_id := target_period_id }

/-- One iteration of the CrudeProductStandardCost copy loop: skip, update or
insert by the target (item, period) key, tallying accordingly. -/
def copyCrudeStep (target_period_id : String) (overwrite : Bool)
    (st : CopySt CrudeCostRow) (src : CrudeCostRow) : CopySt CrudeCostRow :=
  match st.table.find? (crudeKeyMatch src.crude_product_id target_period_id) with
  | some _ =>
    if overwrite then
      { st with
        table := updateFirst (crudeKeyMatch src.crude_product_id target_period_id)
          (copyCrudeApply src) st.table
        updated := st.updated + 1 }
    else { st with skipped := st.skipped + 1 }
  | none =>
    { st with
      table := st.table ++ [copyCrudeNew src target_period_id]
      copied := st.copied + 1 }

/-- One iteration of the StandardCost copy loop. -/
def copyProductStep (target_period_id : String) (overwrite : Bool)
    (st : CopySt StandardCostRow) (src : StandardCostRow) : CopySt StandardCostRow :=
  match st.table.find? (productKeyMatch src.product_id target_period_id) with
  | some _ =>
    if overwrite then
      { st with
        table := updateFirst (productKeyMatch src.product_id target_period_id)
          (copyProductApply src) st.table
        updated := st.updated + 1 }
    else { st with skipped := st.skipped + 1 }
  | none =>
    { st with
      table := st.table ++ [copyProductNew src target_period_id]
      copied := st.copied + 1 }

/-- `copy_standard_costs(db, source, target, overwrite)` from
cost_calculation.py: validate the periods, then copy both cost tables row
by row with skip/overwrite semantics, returning the counters. -/
def copy_standard_costs (db : DB) (source_period_id target_period_id : String)
    (overwrite : Bool) : Except String (DB × CopyCounters) :=
  if source_period_id = target_period_id then
    .error "コピー元とコピー先の期間が同じです"
  else if ¬ source_period_id ∈ db.fiscal_periods then
    .error "コピー元の会計期間が見つかりません"
  else if ¬ target_period_id ∈ db.fiscal_periods then
    .error "コピー先の会計期間が見つかりません"
  else
    let src_cp := db.crude_standard_costs.filter
      (fun r => r.period_id == source_period_id)
    let stc := src_cp.foldl (copyCrudeStep target_period_id overwrite)
      ⟨db.crude_standard_costs, 0, 0, 0⟩
    let src_p := db.standard_costs.filter
      (fun r => r.period_id == source_period_id)
    let stp := src_p.foldl (copyProductStep target_period_id overwrite)
      ⟨db.standard_costs, 0, 0, 0⟩
    .ok ({ db with crude_standard_costs := stc.table, standard_costs := stp.table },
      { crude_product_costs_copied := stc.copied
        crude_product_costs_skipped := stc.skipped
        crude_product_costs_updated := stc.updated
        product_costs_copied := stp.copied
        product_costs_skipped := stp.skipped
        product_costs_updated := stp.updated })

/-! ## variance_analysis.py -/

/-- COST_ELEMENTS from variance_analysis.py: the five compared fields. -/
def costElements : List String :=
  ["crude_product_cost", "packaging_cost", "labor_cost", "overhead_cost",
    "outsourcing_cost"]

/-- `getattr(sc, field_name, 0)` on a StandardCost row. -/
def stdElementValue (sc : StandardCostRow) (field : String) : ℚ :=
  if field = "crude_product_cost" then sc.crude_product_cost
  else if field = "packaging_cost" then sc.packaging_cost
  else if field = "labor_cost" then sc.labor_cost
  else if field = "overhead_cost" then sc.overhead_cost
  else if field = "outsourcing_cost" then sc.outsourcing_cost
  else 0

/-- `getattr(ac, field_name, 0)` on an ActualCost row. -/
def actElementValue (ac : ActualCostRow) (field : String) : ℚ :=
  if field = "crude_product_cost" then ac.crude_product_cost
  else if field = "packaging_cost" then ac.packaging_cost
  else if field = "labor_cost" then ac.labor_cost
  else if field = "overhead_cost" then ac.overhead_cost
  else if field = "outsourcing_cost" then ac.outsourcing_cost
  else 0

/-- `_calc_percent(variance, standard)`: zero when the standard is zero,
else `variance / standard * 100` rounded half-up to 4 places. -/
def calc_percent (variance standard : ℚ) : ℚ :=
  if standard = 0 then 0 else round4 (variance / standard * 100)

/-- A VarianceRecord row from models/variance.py (the computed fields;
`variance_type` is always `price` and `flag_reason` a generated message,
neither of which the analysis logic branches on). -/
structure VRecord where
  product_id : String
  cost_center_id : String
  period_id : String
  cost_element : String
  standard_amount : ℚ
  actual_amount : ℚ
  variance_amount : ℚ
  variance_percent : ℚ
  is_favorable : Bool
  is_flagged : Bool
deriving DecidableEq, Repr

/-- The record-creation loops of analyze_variances for one product: per
cost element, one record per actual-cost row, compared against the
product-level standard figure. -/
def varianceRecordsFor (sc : StandardCostRow) (actuals : List ActualCostRow)
    (threshold_percent : ℚ) (period_id : String) : List VRecord :=
  costElements.flatMap (fun field =>
    actuals.map (fun ac =>
      let ac_std := stdElementValue sc field
      let ac_act := actElementValue ac field
      let ac_variance := ac_act - ac_std
      let ac_pct := calc_percent ac_variance ac_std
      { product_id := sc.product_id
        cost_center_id := ac.cost_center_id
        period_id := period_id
        cost_element := field
        standard_amount := ac_std
        actual_amount := ac_act
        variance_amount := ac_variance
        variance_percent := ac_pct
        is_favorable := decide (ac_variance ≤ 0)
        is_flagged := decide (|ac_pct| > threshold_percent) }))

/-- The VarianceRecords one analyze_variances run creates, given the
period's standard-cost and actual-cost rows: products present in both sets,
iterated in sorted order, with actual rows grouped per product. -/
def analyze_variance_records (stds : List StandardCostRow)
    (acts : List ActualCostRow) (threshold_percent : ℚ) (period_id : String) :
    List VRecord :=
  let standard_costs := dictOfList (stds.map (fun sc => (sc.product_id, sc)))
  let pids := ((standard_costs.map Prod.fst).filter
    (fun p => acts.any (fun a => a.product_id == p))).mergeSort
    (fun a b => decide (a ≤ b))
  pids.flatMap (fun pid =>
    match standard_costs.lookup pid with
    | some sc =>
      varianceRecordsFor sc (acts.filter (fun a => a.product_id == pid))
        threshold_percent period_id
    | none => [])

/-! ## reconciliation.py -/

/-- Key order of a Python dict built by repeated insertion: each key at its
first occurrence. -/
def firstOccAux (seen : List String) : List String → List String
  | [] => []
  | x :: xs =>
    if seen.contains x then firstOccAux seen xs
    else x :: firstOccAux (x :: seen) xs

/-- First-occurrence order of a list of keys. -/
def firstOcc (l : List String) : List String := firstOccAux [] l

/-- `by_product[product_id][source] ` after the grouping loop: the last
loaded row for that product and source system (later rows overwrite
earlier ones in the dict), as its total cost. -/
def lookupSourceCost (costs : List ActualCostRow) (pid src : String) : Option ℚ :=
  ((costs.filter (fun c => c.product_id == pid && c.source_system == src)).getLast?).map
    (fun c => c.total_cost)

/-- The per-product branch of reconcile_period: both sources present →
matched / discrepancy by `|a − b| ≤ threshold`; one present → unmatched
with a note naming the missing side; neither → no row. -/
def reconcileProduct (period_id : String) (threshold : ℚ)
    (costs : List ActualCostRow) (pid : String) : Option ReconRow :=
  match lookupSourceCost costs pid "sc_system",
      lookupSourceCost costs pid "kanjyo_bugyo" with
  | some a, some b =>
    some
      { period_id := period_id
        entity_id := pid
        value_a := some a
        value_b := some b
        difference := some (a - b)
        status := if |a - b| ≤ threshold then .matched else .discrepancy
        notes := none }
  | some a, none =>
    some
      { period_id := period_id
        entity_id := pid
        value_a := some a
        value_b := none
        difference := none
        status := .unmatched
        notes := some "勘定奉行にデータなし" }
  | none, some b =>
    some
      { period_id := period_id
        entity_id := pid
        value_a := none
        value_b := some b
        difference := none
        status := .unmatched
        notes := some "SCシステムにデータなし" }
  | none, none => none

/-- `reconcile_period(db, period_id, threshold)` from reconciliation.py:
delete the period's previous results, then write one row per product of
the period's actual costs, in first-appearance order. Returns the new
database state and the rows created. -/
def reconcile_period (db : DB) (period_id : String) (threshold : ℚ) :
    DB × List ReconRow :=
  let remaining := db.recon_results.filter (fun r => !(r.period_id == period_id))
  let all_costs := db.actual_costs.filter (fun c => c.period_id == period_id)
  let newRows := (firstOcc (all_costs.map (fun c => c.product_id))).filterMap
    (reconcileProduct period_id threshold all_costs)
  ({ db with recon_results := remaining ++ newRows }, newRows)

/-! ## Theorems -/

/-- Closed form of the allocation loop on a list with an explicit last
element: earlier items get rounded shares, the last the remainder. -/
lemma allocGo_closed (total tq : ℚ) (front : List (String × ℚ)) (k : String) (q : ℚ) :
    ∀ acc : ℚ,
      allocGo total tq acc (front ++ [(k, q)]) =
        front.map (fun p => (p.1, round4 (total * p.2 / tq))) ++
          [(k, total - (acc + (front.map (fun p => round4 (total * p.2 / tq))).sum))] := by
  induction front with
  | nil =>
    intro acc
    simp [allocGo]
  | cons hd tl ih =>
    intro acc
    obtain ⟨k', q'⟩ := hd
    have hne : ¬ ((tl ++ [(k, q)] : List (String × ℚ)).isEmpty = true) := by
      cases tl <;> simp
    rw [List.cons_append]
    simp only [allocGo]
    rw [if_neg hne, ih]
    simp only [List.map_cons, List.sum_cons, List.cons_append]
    rw [add_assoc]

/-- Sum of the allocation loop's output equals the budget minus what was
already allocated (the last item absorbs all rounding). -/
lemma allocGo_sum (total tq : ℚ) (front : List (String × ℚ)) (k : String) (q : ℚ)
    (acc : ℚ) :
    ((allocGo total tq acc (front ++ [(k, q)])).map Prod.snd).sum = total - acc := by
  rw [allocGo_closed]
  simp only [List.map_append, List.map_map, List.map_cons, List.map_nil,
    List.sum_append, List.sum_cons, List.sum_nil]
  have hc : (Prod.snd ∘ fun p : String × ℚ => (p.1, round4 (total * p.2 / tq))) =
      fun p : String × ℚ => round4 (total * p.2 / tq) := rfl
  rw [hc]
  ring

/-- C1 counterexample: with one item of quantity 0 and total 100, the
zero-total-quantity guard returns an all-zero allocation, whose sum 0 is
not the total 100 — so the allocated amounts do not sum to the total "for
any combination of quantities including zeros". -/
theorem c1_counterexample :
    ((allocate_by_quantity 100 [("a", 0)]).map Prod.snd).sum ≠ (100 : ℚ) := by
  norm_num [allocate_by_quantity]

/-- C1 (amended): for `allocate_by_quantity(total, quantities)` with at
least one item whose quantities sum to a nonzero value, each non-last item
receives `total * qty / total_qty` rounded half-up to 4 decimal places, the
last item receives the exact remainder `total − sum_of_others`, and the
returned amounts sum exactly to `total`. (When the quantities sum to zero
— e.g. all zeros — every item instead receives zero.) -/
theorem c1_allocation_sums_exactly (total_budget : ℚ)
    (front : List (String × ℚ)) (k : String) (q : ℚ)
    (h : (((front ++ [(k, q)]).map Prod.snd).sum) ≠ 0) :
    allocate_by_quantity total_budget (front ++ [(k, q)]) =
      front.map (fun p =>
        (p.1, round4 (total_budget * p.2 / ((front ++ [(k, q)]).map Prod.snd).sum))) ++
        [(k, total_budget - (front.map (fun p =>
          round4 (total_budget * p.2 / ((front ++ [(k, q)]).map Prod.snd).sum))).sum)] ∧
    ((allocate_by_quantity total_budget (front ++ [(k, q)])).map Prod.snd).sum =
      total_budget := by
  constructor
  · rw [allocate_by_quantity, if_neg h, allocGo_closed]
    simp
  · rw [allocate_by_quantity, if_neg h, allocGo_sum]
    ring

/-- C1 witness: three items of quantity 1 each under a budget of 100 sum
back to exactly 100. -/
theorem c1_allocation_sums_exactly_witness :
    ((allocate_by_quantity 100 ([("a", 1), ("b", 1)] ++ [("c", 1)])).map
      Prod.snd).sum = (100 : ℚ) :=
  (c1_allocation_sums_exactly 100 [("a", 1), ("b", 1)] "c" 1 (by norm_num)).2

/-- C8: the divide-by-zero guards of the core. Zero total quantity in
`allocate_by_quantity` and zero total ratio in `allocate_by_ratio` yield
all-zero allocations; a zero standard quantity yields a zero Stage-1 unit
cost; a non-positive Stage-2 lot size is replaced by 1; a zero standard
amount yields a zero variance percent. -/
theorem c8_divide_by_zero_guards (total : ℚ) (qs rs : List (String × ℚ))
    (total_cost lot variance : ℚ)
    (hq : ((qs.map Prod.snd).sum) = 0) (hr : ((rs.map Prod.snd).sum) = 0)
    (hlot : lot ≤ 0) :
    (∀ p ∈ allocate_by_quantity total qs, p.2 = 0) ∧
    (∀ p ∈ allocate_by_ratio total rs, p.2 = 0) ∧
    stage1UnitCost total_cost 0 = 0 ∧
    stage2LotSize lot = 1 ∧
    calc_percent variance 0 = 0 := by
  refine ⟨?_, ?_, ?_, ?_, ?_⟩
  · intro p hp
    rw [allocate_by_quantity, if_pos hq] at hp
    obtain ⟨x, _, rfl⟩ := List.mem_map.mp hp
    rfl
  · intro p hp
    rw [allocate_by_ratio, if_pos hr] at hp
    obtain ⟨x, _, rfl⟩ := List.mem_map.mp hp
    rfl
  · simp [stage1UnitCost]
  · rw [stage2LotSize, if_neg (not_lt.mpr hlot)]
  · simp [calc_percent]

/-- C8 witness: a zero lot size is replaced by 1 (instantiating every guard
hypothesis concretely). -/
theorem c8_divide_by_zero_guards_witness : stage2LotSize 0 = 1 :=
  (c8_divide_by_zero_guards 5 [("a", 0)] [("b", 0)] 7 0 3 (by norm_num)
    (by norm_num) le_rfl).2.2.2.1

/-- Membership in a `dictInsert` comes from the dict or the inserted pair. -/
lemma mem_dictInsert {α : Type} {p : String × α} {d : List (String × α)}
    {k : String} {v : α} (h : p ∈ dictInsert d k v) : p ∈ d ∨ p = (k, v) := by
  rw [dictInsert] at h
  by_cases hc : d.any (fun q => q.1 == k)
  · rw [if_pos hc] at h
    obtain ⟨x, hx, hxe⟩ := List.mem_map.mp h
    by_cases hk : x.1 == k
    · rw [if_pos hk] at hxe
      exact Or.inr hxe.symm
    · rw [if_neg hk] at hxe
      exact Or.inl (hxe ▸ hx)
  · rw [if_neg hc] at h
    rcases List.mem_append.mp h with h | h
    · exact Or.inl h
    · right
      simpa using h

/-- Membership in a dict built by `dictOfList` comes from the input list. -/
lemma dictOfList_mem {α : Type} {l : List (String × α)} {p : String × α}
    (h : p ∈ dictOfList l) : p ∈ l := by
  rw [dictOfList] at h
  suffices ha : ∀ acc : List (String × α),
      p ∈ l.foldl (fun d q => dictInsert d q.1 q.2) acc → p ∈ acc ∨ p ∈ l by
    rcases ha [] h with h' | h'
    · cases h'
    · exact h'
  clear h
  induction l with
  | nil =>
    intro acc h
    exact Or.inl h
  | cons x xs ih =>
    intro acc h
    rw [List.foldl_cons] at h
    rcases ih (dictInsert acc x.1 x.2) h with h' | h'
    · rcases mem_dictInsert h' with h'' | h''
      · exact Or.inl h''
      · exact Or.inr (List.mem_cons.mpr (Or.inl (by rw [h''])))
    · exact Or.inr (List.mem_cons.mpr (Or.inr h'))

/-- A successful `List.lookup` exhibits a member pair. -/
lemma lookup_mem {α : Type} {l : List (String × α)} {k : String} {v : α}
    (h : l.lookup k = some v) : (k, v) ∈ l := by
  induction l with
  | nil => cases h
  | cons x xs ih =>
    obtain ⟨xk, xv⟩ := x
    rw [List.lookup] at h
    by_cases hk : k == xk
    · rw [hk] at h
      cases h
      have : k = xk := by simpa using hk
      subst this
      exact List.mem_cons_self _ _
    · rw [Bool.of_not_eq_true hk] at h
      exact List.mem_cons.mpr (Or.inr (ih h))

/-- C5: every variance record analyze_variances produces has
variance = actual − standard (the product-level standard figure against
one cost center's actual row), percent = variance / standard × 100 rounded
half-up to 4 places (zero when the standard is zero), is favorable iff the
variance is ≤ 0, and is flagged iff the absolute percent strictly exceeds
the threshold. -/
theorem c5_variance_record_fields (stds : List StandardCostRow)
    (acts : List ActualCostRow) (threshold_percent : ℚ) (period_id : String)
    (r : VRecord)
    (hr : r ∈ analyze_variance_records stds acts threshold_percent period_id) :
    r.variance_amount = r.actual_amount - r.standard_amount ∧
    r.variance_percent = (if r.standard_amount = 0 then 0
      else round4 (r.variance_amount / r.standard_amount * 100)) ∧
    (r.is_favorable = true ↔ r.variance_amount ≤ 0) ∧
    (r.is_flagged = true ↔ |r.variance_percent| > threshold_percent) ∧
    (∃ sc, sc ∈ stds ∧ sc.product_id = r.product_id ∧
      r.standard_amount = stdElementValue sc r.cost_element) ∧
    (∃ ac, ac ∈ acts ∧ ac.product_id = r.product_id ∧
      ac.cost_center_id = r.cost_center_id ∧
      r.actual_amount = actElementValue ac r.cost_element) := by
  simp only [analyze_variance_records] at hr
  obtain ⟨pid, hpid, hrf⟩ := List.mem_flatMap.mp hr
  cases hsc : (dictOfList (stds.map (fun sc => (sc.product_id, sc)))).lookup pid with
  | none => rw [hsc] at hrf; cases hrf
  | some sc =>
    rw [hsc] at hrf
    have hscMem : sc ∈ stds ∧ sc.product_id = pid := by
      have h1 := dictOfList_mem (lookup_mem hsc)
      obtain ⟨sc', hsc', heq⟩ := List.mem_map.mp h1
      obtain ⟨h2, h3⟩ := Prod.mk.injEq .. ▸ heq
      exact ⟨h3 ▸ hsc', h3 ▸ h2⟩
    obtain ⟨field, _, hmem⟩ := List.mem_flatMap.mp hrf
    obtain ⟨ac, hac, hre⟩ := List.mem_map.mp hmem
    obtain ⟨hacMem, hacPid⟩ := List.mem_filter.mp hac
    subst hre
    refine ⟨by simp, by simp [calc_percent], by simp, by simp, ?_, ?_⟩
    · exact ⟨sc, hscMem.1, rfl, rfl⟩
    · refine ⟨ac, hacMem, ?_, rfl, rfl⟩
      have : ac.product_id = pid := by simpa using hacPid
      simpa [this] using hscMem.2.symm

/-- C5 witness: standard 100 and actual 80 yield variance −20 on the
record analyze_variances produces for that product and cost center. -/
theorem c5_variance_record_fields_witness : (-20 : ℚ) = 80 - 100 :=
  (c5_variance_record_fields
    [⟨"p1", "P", 100, 0, 0, 0, 0, 100, 100, 1, none⟩]
    [⟨"p1", "c1", "P", 80, 0, 0, 0, 0, 80, "sc_system"⟩] 5 "P"
    ⟨"p1", "c1", "P", "crude_product_cost", 100, 80, -20, -20, true, true⟩
    (by norm_num [analyze_variance_records, dictOfList, dictInsert,
      varianceRecordsFor, costElements, stdElementValue, actElementValue,
      calc_percent, round4, rhalfUp, List.mergeSort, List.lookup])).1

/-- With a wildcard already captured and no exact match remaining, the
`_find_matching_rule` loop returns the captured wildcard. -/
lemma findMatchingRuleGo_some (ce : String) (w : AllocationRule) :
    ∀ rules : List AllocationRule, (∀ r ∈ rules, r.cost_element ≠ some ce) →
      findMatchingRuleGo ce (some w) rules = some w := by
  intro rules
  induction rules with
  | nil => intro _; rfl
  | cons x rest ih =>
    intro h
    rw [findMatchingRuleGo, if_neg (h x (List.mem_cons_self x rest)),
      if_neg (by simp)]
    exact ih fun r hr => h r (List.mem_cons_of_mem x hr)

/-- With no exact match in the rules, the loop starting with no wildcard
returns the first wildcard — which, for a priority-descending list, has
maximal priority among the wildcards — or none when there is none. -/
lemma findMatchingRuleGo_wildcard (ce : String) :
    ∀ rules : List AllocationRule,
      (∀ r ∈ rules, r.cost_element ≠ some ce) →
      rules.Pairwise (fun a b => b.priority ≤ a.priority) →
      ((∀ r ∈ rules, r.cost_element ≠ none) ∧
        findMatchingRuleGo ce none rules = none) ∨
      (∃ r, findMatchingRuleGo ce none rules = some r ∧ r ∈ rules ∧
        r.cost_element = none ∧
        ∀ w ∈ rules, w.cost_element = none → w.priority ≤ r.priority) := by
  intro rules
  induction rules with
  | nil =>
    intro _ _
    exact Or.inl ⟨by simp, rfl⟩
  | cons x rest ih =>
    intro hne hp
    rw [findMatchingRuleGo, if_neg (hne x (List.mem_cons_self x rest))]
    by_cases hx : x.cost_element = none
    · rw [if_pos ⟨hx, rfl⟩]
      right
      refine ⟨x, findMatchingRuleGo_some ce x rest
        (fun r hr => hne r (List.mem_cons_of_mem x hr)),
        List.mem_cons_self x rest, hx, ?_⟩
      intro w hw _
      rcases List.mem_cons.mp hw with h | h
      · rw [h]
      · exact (List.pairwise_cons.mp hp).1 w h
    · rw [if_neg (by simp [hx])]
      rcases ih (fun r hr => hne r (List.mem_cons_of_mem x hr))
          (List.pairwise_cons.mp hp).2 with ⟨hnone, heq⟩ | ⟨r, heq, hrmem, hrn, hmax⟩
      · refine Or.inl ⟨?_, heq⟩
        intro r hr
        rcases List.mem_cons.mp hr with h | h
        · exact h ▸ hx
        · exact hnone r h
      · right
        refine ⟨r, heq, List.mem_cons_of_mem x hrmem, hrn, ?_⟩
        intro w hw hwn
        rcases List.mem_cons.mp hw with h | h
        · exact absurd (h ▸ hwn) hx
        · exact hmax w h hwn

/-- With an exact match present, the loop returns an exact match whatever
wildcard it has captured so far. -/
lemma findMatchingRuleGo_exact (ce : String) :
    ∀ (rules : List AllocationRule) (w : Option AllocationRule),
      (∃ r ∈ rules, r.cost_element = some ce) →
      ∃ r, findMatchingRuleGo ce w rules = some r ∧ r.cost_element = some ce := by
  intro rules
  induction rules with
  | nil =>
    rintro w ⟨r, hr, _⟩
    cases hr
  | cons x rest ih =>
    rintro w ⟨r, hr, hce⟩
    rw [findMatchingRuleGo]
    by_cases hx : x.cost_element = some ce
    · exact ⟨x, by rw [if_pos hx], hx⟩
    · rw [if_neg hx]
      have hrest : ∃ r ∈ rest, r.cost_element = some ce := by
        rcases List.mem_cons.mp hr with h | h
        · exact absurd (h ▸ hce) hx
        · exact ⟨r, h, hce⟩
      by_cases hcond : x.cost_element = none ∧ w = none
      · rw [if_pos hcond]
        exact ih _ hrest
      · rw [if_neg hcond]
        exact ih _ hrest

/-- C4: on a rule list sorted by priority descending, `_find_matching_rule`
returns an exact cost-element match whenever one exists (wildcards never
outrank it, whatever their priority); with no exact match it returns the
highest-priority wildcard rule; and with neither it returns none. -/
theorem c4_rule_precedence (rules : List AllocationRule) (ce : String)
    (hsorted : rules.Pairwise (fun a b => b.priority ≤ a.priority)) :
    ((∃ r ∈ rules, r.cost_element = some ce) →
      ∃ r, find_matching_rule rules ce = some r ∧ r.cost_element = some ce) ∧
    ((∀ r ∈ rules, r.cost_element ≠ some ce) →
      ((∃ r ∈ rules, r.cost_element = none) →
        ∃ r, find_matching_rule rules ce = some r ∧ r ∈ rules ∧
          r.cost_element = none ∧
          ∀ w ∈ rules, w.cost_element = none → w.priority ≤ r.priority) ∧
      ((∀ r ∈ rules, r.cost_element ≠ none) →
        find_matching_rule rules ce = none)) := by
  constructor
  · intro hex
    exact findMatchingRuleGo_exact ce rules none hex
  · intro hne
    rcases findMatchingRuleGo_wildcard ce rules hne hsorted with
      ⟨hnone, heq⟩ | ⟨r, heq, hrmem, hrn, hmax⟩
    · constructor
      · rintro ⟨r, hr, hrn⟩
        exact absurd hrn (hnone r hr)
      · intro _
        exact heq
    · constructor
      · intro _
        exact ⟨r, heq, hrmem, hrn, hmax⟩
      · intro hnone
        exact absurd hrn (hnone r hrmem)

/-- C4 witness: an exact "labor" rule of priority 5 beats a wildcard of
priority 10 on a priority-descending list. -/
theorem c4_rule_precedence_witness :
    ∃ r, find_matching_rule
      [⟨"w", "s", none, .raw_material_quantity, 10, true, []⟩,
        ⟨"e", "s", some "labor", .raw_material_quantity, 5, true, []⟩] "labor" =
        some r ∧ r.cost_element = some "labor" :=
  (c4_rule_precedence
    [⟨"w", "s", none, .raw_material_quantity, 10, true, []⟩,
      ⟨"e", "s", some "labor", .raw_material_quantity, 5, true, []⟩] "labor"
    (by simp)).1
    ⟨⟨"e", "s", some "labor", .raw_material_quantity, 5, true, []⟩, by simp, rfl⟩

/-- The allocation loop preserves the items and their order. -/
lemma allocGo_keys (total tq : ℚ) :
    ∀ (l : List (String × ℚ)) (acc : ℚ),
      (allocGo total tq acc l).map Prod.fst = l.map Prod.fst := by
  intro l
  induction l with
  | nil => intro acc; rfl
  | cons x rest ih =>
    intro acc
    obtain ⟨k, q⟩ := x
    rw [allocGo]
    cases rest with
    | nil => rfl
    | cons y rest' =>
      simp only [List.isEmpty_cons, Bool.false_eq_true, if_false, List.map_cons]
      simp [ih]

/-- `allocate_by_quantity` returns exactly the input's item ids, in order. -/
lemma allocate_by_quantity_keys (total : ℚ) (l : List (String × ℚ)) :
    (allocate_by_quantity total l).map Prod.fst = l.map Prod.fst := by
  rw [allocate_by_quantity]
  by_cases h : (l.map Prod.snd).sum = 0
  · rw [if_pos h, List.map_map]
    rfl
  · rw [if_neg h, allocGo_keys]

/-- `allocate_by_ratio` returns exactly the input's item ids, in order. -/
lemma allocate_by_ratio_keys (total : ℚ) (l : List (String × ℚ)) :
    (allocate_by_ratio total l).map Prod.fst = l.map Prod.fst := by
  rw [allocate_by_ratio]
  by_cases h : (l.map Prod.snd).sum = 0
  · rw [if_pos h, List.map_map]
    rfl
  · rw [if_neg h, allocGo_keys]

/-- `compute_allocation_quantities` is keyed by the item data's ids. -/
lemma compute_allocation_quantities_keys (basis : AllocationBasis)
    (item_data : List (String × ItemData)) :
    (compute_allocation_quantities basis item_data).map Prod.fst =
      item_data.map Prod.fst := by
  rw [compute_allocation_quantities, List.map_map]
  rfl

/-- Entries of the `execute_rule_based_allocation` loop: one per budget
element in order, zero-budget elements mapped to all-zero item maps and the
rest to `execAllocationOf`. -/
lemma execRBA_entries (rules : List AllocationRule) (scc : String)
    (item_data : List (String × ItemData)) (period_id : Option String)
    (simulate : Bool) (default_basis : AllocationBasis) :
    ∀ (budgets : List (String × ℚ))
      (st : List CostAllocationRow × List (String × List (String × ℚ))),
      (budgets.foldl (execAllocStep rules scc item_data period_id simulate
        default_basis) st).2 =
        st.2 ++ budgets.map (fun be =>
          (be.1, if be.2 = 0 then item_data.map (fun p => (p.1, (0 : ℚ)))
            else execAllocationOf rules item_data default_basis be.1 be.2)) := by
  intro budgets
  induction budgets with
  | nil =>
    intro st
    simp
  | cons be rest ih =>
    intro st
    rw [List.foldl_cons, ih, List.map_cons]
    by_cases hz : be.2 = 0
    · rw [execAllocStep, if_pos hz, if_pos hz]
      simp
    · rw [execAllocStep, if_neg hz, if_neg hz]
      simp

/-- C3 counterexample: a manual rule with a configured target cost center
"cc9" makes the inner map keyed by "cc9", not by the item id "item1" of
`item_data`. -/
theorem c3_counterexample :
    ((execute_rule_based_allocation
      [⟨"r1", "s", some "labor", .manual, 1, true, [⟨"cc9", 1⟩]⟩] "s"
      [("labor", 100)] [("item1", ⟨1, 0, 0, none⟩)] none true
      .raw_material_quantity).2.map (fun p => p.2.map Prod.fst)) = [["cc9"]] ∧
    "cc9" ≠ "item1" := by
  constructor
  · norm_num [execute_rule_based_allocation, load_allocation_rules,
      execAllocStep, execAllocationOf, find_matching_rule, findMatchingRuleGo,
      dictOfList, dictInsert, allocate_by_ratio, allocGo, List.mergeSort]
  · decide

/-- C3 (amended): the outer map of `execute_rule_based_allocation` is keyed
by the budget's cost elements, and each budget entry's inner map is
branch-determined: a zero budget yields exactly the all-zero map keyed by
`item_data`'s item ids (even under a manual rule); a non-zero budget whose
matching rule has manual basis and configured (non-empty) targets yields
exactly `allocate_by_ratio` of the budget over the rule's target-ratio
dict, so the inner map is keyed by the target cost-center ids; every other
non-zero budget yields an inner map keyed by exactly the item ids. -/
theorem c3_allocation_result_keys (rules : List AllocationRule) (scc : String)
    (budgets : List (String × ℚ)) (item_data : List (String × ItemData))
    (period_id : Option String) (simulate : Bool)
    (default_basis : AllocationBasis) :
    ((execute_rule_based_allocation rules scc budgets item_data period_id
      simulate default_basis).2.map Prod.fst = budgets.map Prod.fst) ∧
    (∀ (i : ℕ) (be : String × ℚ), budgets[i]? = some be →
      (be.2 = 0 →
        (execute_rule_based_allocation rules scc budgets item_data period_id
          simulate default_basis).2[i]? =
          some (be.1, item_data.map (fun p => (p.1, (0 : ℚ))))) ∧
      (∀ rule, be.2 ≠ 0 →
        find_matching_rule (load_allocation_rules rules scc) be.1 =
          some rule →
        rule.basis = .manual →
        (dictOfList (rule.targets.map
          (fun t => (t.target_cost_center_id, t.ratio)))).isEmpty = false →
        (execute_rule_based_allocation rules scc budgets item_data period_id
          simulate default_basis).2[i]? =
          some (be.1, allocate_by_ratio be.2 (dictOfList (rule.targets.map
            (fun t => (t.target_cost_center_id, t.ratio))))) ∧
        (allocate_by_ratio be.2 (dictOfList (rule.targets.map
          (fun t => (t.target_cost_center_id, t.ratio))))).map Prod.fst =
          (dictOfList (rule.targets.map
            (fun t => (t.target_cost_center_id, t.ratio)))).map Prod.fst) ∧
      (be.2 ≠ 0 →
        (∀ rule, find_matching_rule (load_allocation_rules rules scc) be.1 =
            some rule →
          rule.basis = .manual →
          (dictOfList (rule.targets.map
            (fun t => (t.target_cost_center_id, t.ratio)))).isEmpty = false →
          False) →
        ∃ inner, (execute_rule_based_allocation rules scc budgets item_data
            period_id simulate default_basis).2[i]? = some (be.1, inner) ∧
          inner.map Prod.fst = item_data.map Prod.fst)) := by
  have hres : (execute_rule_based_allocation rules scc budgets item_data
      period_id simulate default_basis).2 =
      budgets.map (fun be =>
        (be.1, if be.2 = 0 then item_data.map (fun p => (p.1, (0 : ℚ)))
          else execAllocationOf (load_allocation_rules rules scc) item_data
            default_basis be.1 be.2)) := by
    rw [execute_rule_based_allocation, execRBA_entries]
    exact List.nil_append _
  constructor
  · rw [hres, List.map_map]
    rfl
  · intro i be hbe
    have hri : (execute_rule_based_allocation rules scc budgets item_data
        period_id simulate default_basis).2[i]? =
        some (be.1, if be.2 = 0 then item_data.map (fun p => (p.1, (0 : ℚ)))
          else execAllocationOf (load_allocation_rules rules scc) item_data
            default_basis be.1 be.2) := by
      rw [hres, List.getElem?_map, hbe]
      rfl
    refine ⟨?_, ?_, ?_⟩
    · intro hz
      rw [hri, if_pos hz]
    · intro rule hz hfind hman hemp
      have hemp2 : ¬((dictOfList (rule.targets.map
          (fun t => (t.target_cost_center_id, t.ratio)))).isEmpty = true) := by
        simp [hemp]
      refine ⟨?_, allocate_by_ratio_keys _ _⟩
      rw [hri, if_neg hz]
      simp only [execAllocationOf, hfind]
      rw [if_pos hman, if_neg hemp2]
    · intro hz hnot
      refine ⟨execAllocationOf (load_allocation_rules rules scc) item_data
          default_basis be.1 be.2, ?_, ?_⟩
      · rw [hri, if_neg hz]
      · cases hfind : find_matching_rule (load_allocation_rules rules scc)
            be.1 with
        | none =>
          simp only [execAllocationOf, hfind]
          rw [allocate_by_quantity_keys, compute_allocation_quantities_keys]
        | some rule =>
          simp only [execAllocationOf, hfind]
          by_cases hman : rule.basis = AllocationBasis.manual
          · rw [if_pos hman]
            by_cases hemp : (dictOfList (rule.targets.map
                (fun t => (t.target_cost_center_id, t.ratio)))).isEmpty
            · rw [if_pos hemp]
              rw [allocate_by_quantity_keys,
                compute_allocation_quantities_keys]
            · exact (hnot rule hfind hman (Bool.eq_false_iff.mpr hemp)).elim
          · rw [if_neg hman]
            rw [allocate_by_quantity_keys, compute_allocation_quantities_keys]

/-- A row reconcile_period writes carries the period and the product it was
written for. -/
lemma reconcileProduct_ids {period_id : String} {threshold : ℚ}
    {costs : List ActualCostRow} {p : String} {r : ReconRow}
    (h : reconcileProduct period_id threshold costs p = some r) :
    r.entity_id = p ∧ r.period_id = period_id := by
  rw [reconcileProduct] at h
  cases ha : lookupSourceCost costs p "sc_system" with
  | some a =>
    rw [ha] at h
    cases hb : lookupSourceCost costs p "kanjyo_bugyo" with
    | some b => rw [hb] at h; cases h; exact ⟨rfl, rfl⟩
    | none => rw [hb] at h; cases h; exact ⟨rfl, rfl⟩
  | none =>
    rw [ha] at h
    cases hb : lookupSourceCost costs p "kanjyo_bugyo" with
    | some b => rw [hb] at h; cases h; exact ⟨rfl, rfl⟩
    | none => rw [hb] at h; cases h

/-- Products absent from a pid list contribute no row found under their id. -/
lemma reconRows_find_none (period_id : String) (threshold : ℚ)
    (costs : List ActualCostRow) :
    ∀ (pids : List String) (pid : String), pid ∉ pids →
      (pids.filterMap (reconcileProduct period_id threshold costs)).find?
        (fun r => r.entity_id == pid) = none := by
  intro pids
  induction pids with
  | nil => intro pid _; rfl
  | cons p ps ih =>
    intro pid hpid
    rw [List.filterMap_cons]
    cases hp : reconcileProduct period_id threshold costs p with
    | none => exact ih pid (fun h => hpid (List.mem_cons_of_mem p h))
    | some r =>
      rw [List.find?_cons_of_neg, ih pid (fun h => hpid (List.mem_cons_of_mem p h))]
      have : r.entity_id = p := (reconcileProduct_ids hp).1
      simp [this]
      exact fun h => hpid (List.mem_cons.mpr (Or.inl h.symm))

/-- On a duplicate-free pid list, the row found under a member pid is
exactly what `reconcileProduct` yields for it. -/
lemma reconRows_find (period_id : String) (threshold : ℚ)
    (costs : List ActualCostRow) :
    ∀ (pids : List String) (pid : String), pid ∈ pids → pids.Nodup →
      (pids.filterMap (reconcileProduct period_id threshold costs)).find?
        (fun r => r.entity_id == pid) =
        reconcileProduct period_id threshold costs pid := by
  intro pids
  induction pids with
  | nil => intro pid h; cases h
  | cons p ps ih =>
    intro pid hmem hnd
    rw [List.filterMap_cons]
    by_cases hpp : pid = p
    · subst hpp
      cases hp : reconcileProduct period_id threshold costs pid with
      | none =>
        exact reconRows_find_none period_id threshold costs ps pid
          (List.nodup_cons.mp hnd).1
      | some r =>
        rw [List.find?_cons_of_pos]
        simp [(reconcileProduct_ids hp).1]
    · have hmem' : pid ∈ ps := by
        rcases List.mem_cons.mp hmem with h | h
        · exact absurd h hpp
        · exact h
      cases hp : reconcileProduct period_id threshold costs p with
      | none => exact ih pid hmem' (List.nodup_cons.mp hnd).2
      | some r =>
        rw [List.find?_cons_of_neg, ih pid hmem' (List.nodup_cons.mp hnd).2]
        simp [(reconcileProduct_ids hp).1]
        exact fun h => hpp h.symm

/-- Membership in `firstOccAux`: in the tail and not yet seen. -/
lemma firstOccAux_mem :
    ∀ (l seen : List String) (x : String),
      x ∈ firstOccAux seen l ↔ x ∈ l ∧ x ∉ seen := by
  intro l
  induction l with
  | nil => intro seen x; simp [firstOccAux]
  | cons y ys ih =>
    intro seen x
    rw [firstOccAux]
    by_cases hy : seen.contains y
    · rw [if_pos hy, ih]
      constructor
      · rintro ⟨h1, h2⟩
        exact ⟨List.mem_cons_of_mem y h1, h2⟩
      · rintro ⟨h1, h2⟩
        rcases List.mem_cons.mp h1 with h | h
        · subst h
          exact absurd (by simpa using hy) h2
        · exact ⟨h, h2⟩
    · rw [if_neg hy]
      constructor
      · intro h
        rcases List.mem_cons.mp h with h | h
        · subst h
          exact ⟨List.mem_cons_self x ys, by simpa using hy⟩
        · have := (ih (y :: seen) x).mp h
          refine ⟨List.mem_cons_of_mem y this.1, ?_⟩
          intro hx
          exact this.2 (List.mem_cons_of_mem y hx)
      · rintro ⟨h1, h2⟩
        rcases List.mem_cons.mp h1 with h | h
        · subst h
          exact List.mem_cons_self x _
        · by_cases hxy : x = y
          · subst hxy
            exact List.mem_cons_self x _
          · refine List.mem_cons_of_mem y ((ih (y :: seen) x).mpr ⟨h, ?_⟩)
            intro hx
            rcases List.mem_cons.mp hx with h' | h'
            · exact hxy h'
            · exact h2 h'

/-- `firstOcc` keeps exactly the keys of the input. -/
lemma firstOcc_mem (l : List String) (x : String) : x ∈ firstOcc l ↔ x ∈ l := by
  rw [firstOcc, firstOccAux_mem]
  simp

/-- `firstOccAux` never repeats a key. -/
lemma firstOccAux_nodup :
    ∀ (l seen : List String), (firstOccAux seen l).Nodup := by
  intro l
  induction l with
  | nil => intro seen; exact List.nodup_nil
  | cons y ys ih =>
    intro seen
    rw [firstOccAux]
    by_cases hy : seen.contains y
    · rw [if_pos hy]
      exact ih seen
    · rw [if_neg hy]
      refine List.nodup_cons.mpr ⟨?_, ih (y :: seen)⟩
      intro hmem
      exact ((firstOccAux_mem ys (y :: seen) y).mp hmem).2 (List.mem_cons_self y seen)

/-- `firstOcc` produces a duplicate-free key list. -/
lemma firstOcc_nodup (l : List String) : (firstOcc l).Nodup :=
  firstOccAux_nodup l []

/-- C6: one reconcile_period run classifies each product of the period by
its two sources — both present: matched iff `|a − b| ≤ threshold`, else
discrepancy, recording both values and the signed difference `a − b`; one
present: unmatched, with a note naming the empty side — and the final
state's rows for the period are exactly the rows this run wrote (previous
results deleted). -/
theorem c6_reconcile_period (db : DB) (period_id : String) (threshold : ℚ)
    (pid : String)
    (hpid : pid ∈ (db.actual_costs.filter
      (fun c => c.period_id == period_id)).map (fun c => c.product_id)) :
    ((∀ a b,
      lookupSourceCost (db.actual_costs.filter
        (fun c => c.period_id == period_id)) pid "sc_system" = some a →
      lookupSourceCost (db.actual_costs.filter
        (fun c => c.period_id == period_id)) pid "kanjyo_bugyo" = some b →
      (reconcile_period db period_id threshold).2.find?
        (fun r => r.entity_id == pid) =
        some ⟨period_id, pid, some a, some b, some (a - b),
          if |a - b| ≤ threshold then .matched else .discrepancy, none⟩) ∧
    (∀ a,
      lookupSourceCost (db.actual_costs.filter
        (fun c => c.period_id == period_id)) pid "sc_system" = some a →
      lookupSourceCost (db.actual_costs.filter
        (fun c => c.period_id == period_id)) pid "kanjyo_bugyo" = none →
      (reconcile_period db period_id threshold).2.find?
        (fun r => r.entity_id == pid) =
        some ⟨period_id, pid, some a, none, none, .unmatched,
          some "勘定奉行にデータなし"⟩) ∧
    (∀ b,
      lookupSourceCost (db.actual_costs.filter
        (fun c => c.period_id == period_id)) pid "sc_system" = none →
      lookupSourceCost (db.actual_costs.filter
        (fun c => c.period_id == period_id)) pid "kanjyo_bugyo" = some b →
      (reconcile_period db period_id threshold).2.find?
        (fun r => r.entity_id == pid) =
        some ⟨period_id, pid, none, some b, none, .unmatched,
          some "SCシステムにデータなし"⟩)) ∧
    (reconcile_period db period_id threshold).1.recon_results.filter
      (fun r => r.period_id == period_id) =
      (reconcile_period db period_id threshold).2 := by
  have hfind : (reconcile_period db period_id threshold).2.find?
      (fun r => r.entity_id == pid) =
      reconcileProduct period_id threshold
        (db.actual_costs.filter (fun c => c.period_id == period_id)) pid := by
    rw [reconcile_period]
    exact reconRows_find period_id threshold _ _ pid
      ((firstOcc_mem _ pid).mpr (by simpa using hpid)) (firstOcc_nodup _)
  refine ⟨⟨?_, ?_, ?_⟩, ?_⟩
  · intro a b ha hb
    rw [hfind]
    simp only [reconcileProduct, ha, hb]
  · intro a ha hb
    rw [hfind]
    simp only [reconcileProduct, ha, hb]
  · intro b ha hb
    rw [hfind]
    simp only [reconcileProduct, ha, hb]
  · rw [reconcile_period]
    simp only [List.filter_append]
    have h2 : List.filter (fun r => r.period_id == period_id)
        (db.recon_results.filter (fun r => !(r.period_id == period_id))) = [] := by
      rw [List.filter_eq_nil_iff]
      intro r hr
      have hm := (List.mem_filter.mp hr).2
      simp only [Bool.not_eq_eq_eq_not, Bool.not_true] at hm
      simp [hm]
    rw [h2, List.nil_append]
    apply List.filter_eq_self.mpr
    intro r hr
    obtain ⟨p, _, hp⟩ := List.mem_filterMap.mp hr
    exact beq_iff_eq.mpr (reconcileProduct_ids hp).2

/-- C6 witness: sources 1000 and 1500 under threshold 1000 classify as
matched (diff 500), on a concrete two-row period. -/
theorem c6_reconcile_period_witness :
    (reconcile_period
      ⟨[], [], [], [], [], [], [], [], [], [], [],
        [⟨"p1", "c1", "P", 0, 0, 0, 0, 0, 1000, "sc_system"⟩,
          ⟨"p1", "c2", "P", 0, 0, 0, 0, 0, 1500, "kanjyo_bugyo"⟩], []⟩
      "P" 1000).2.find? (fun r => r.entity_id == "p1") =
      some ⟨"P", "p1", some 1000, some 1500, some (1000 - 1500),
        if |(1000 : ℚ) - 1500| ≤ 1000 then .matched else .discrepancy, none⟩ :=
  ((c6_reconcile_period
    ⟨[], [], [], [], [], [], [], [], [], [], [],
      [⟨"p1", "c1", "P", 0, 0, 0, 0, 0, 1000, "sc_system"⟩,
        ⟨"p1", "c2", "P", 0, 0, 0, 0, 0, 1500, "kanjyo_bugyo"⟩], []⟩
    "P" 1000 "p1" (by simp)).1.1 1000 1500 rfl rfl)

/-- C10: when a product has several ActualCost rows for the same source
system in a period, reconcile_period compares only the last-loaded row's
total_cost for that source (later rows overwrite earlier ones in the
per-product source dict), not the sum over the source's rows. -/
theorem c10_reconcile_last_row_wins (db : DB) (period_id : String)
    (threshold : ℚ) (pid : String) (front : List ActualCostRow)
    (rlast : ActualCostRow) (b : ℚ)
    (hsc : (db.actual_costs.filter (fun c => c.period_id == period_id)).filter
      (fun c => c.product_id == pid && c.source_system == "sc_system") =
        front ++ [rlast])
    (hkb : lookupSourceCost (db.actual_costs.filter
      (fun c => c.period_id == period_id)) pid "kanjyo_bugyo" = some b)
    (hpid : pid ∈ (db.actual_costs.filter
      (fun c => c.period_id == period_id)).map (fun c => c.product_id)) :
    (reconcile_period db period_id threshold).2.find?
      (fun r => r.entity_id == pid) =
      some ⟨period_id, pid, some rlast.total_cost, some b,
        some (rlast.total_cost - b),
        if |rlast.total_cost - b| ≤ threshold then .matched else .discrepancy,
        none⟩ := by
  have ha : lookupSourceCost (db.actual_costs.filter
      (fun c => c.period_id == period_id)) pid "sc_system" =
      some rlast.total_cost := by
    rw [lookupSourceCost, hsc]
    simp
  have hfind : (reconcile_period db period_id threshold).2.find?
      (fun r => r.entity_id == pid) =
      reconcileProduct period_id threshold
        (db.actual_costs.filter (fun c => c.period_id == period_id)) pid := by
    rw [reconcile_period]
    exact reconRows_find period_id threshold _ _ pid
      ((firstOcc_mem _ pid).mpr (by simpa using hpid)) (firstOcc_nodup _)
  rw [hfind]
  simp only [reconcileProduct, ha, hkb]

/-- C10 witness: two sc_system rows with totals 100 and 30 — the comparison
uses the last row's 30 (which classifies as matched against 30 under
threshold 50, where the sum 130 would not). -/
theorem c10_reconcile_last_row_wins_witness :
    (reconcile_period
      ⟨[], [], [], [], [], [], [], [], [], [], [],
        [⟨"p1", "c1", "P", 0, 0, 0, 0, 0, 100, "sc_system"⟩,
          ⟨"p1", "c2", "P", 0, 0, 0, 0, 0, 30, "sc_system"⟩,
          ⟨"p1", "c3", "P", 0, 0, 0, 0, 0, 30, "kanjyo_bugyo"⟩], []⟩
      "P" 50).2.find? (fun r => r.entity_id == "p1") =
      some ⟨"P", "p1", some 30, some 30, some (30 - 30),
        if |(30 : ℚ) - 30| ≤ 50 then .matched else .discrepancy, none⟩ :=
  c10_reconcile_last_row_wins
    ⟨[], [], [], [], [], [], [], [], [], [], [],
      [⟨"p1", "c1", "P", 0, 0, 0, 0, 0, 100, "sc_system"⟩,
        ⟨"p1", "c2", "P", 0, 0, 0, 0, 0, 30, "sc_system"⟩,
        ⟨"p1", "c3", "P", 0, 0, 0, 0, 0, 30, "kanjyo_bugyo"⟩], []⟩
    "P" 50 "p1" [⟨"p1", "c1", "P", 0, 0, 0, 0, 0, 100, "sc_system"⟩]
    ⟨"p1", "c2", "P", 0, 0, 0, 0, 0, 30, "sc_system"⟩ 30 rfl rfl (by simp)

/-- A lookup that already succeeds is unchanged by appending entries. -/
lemma lookup_append_some {α : Type} {l1 l2 : List (String × α)} {k : String}
    {v : α} (h : l1.lookup k = some v) : (l1 ++ l2).lookup k = some v := by
  induction l1 with
  | nil => cases h
  | cons x xs ih =>
    rw [List.lookup] at h
    rw [List.cons_append, List.lookup]
    by_cases hk : k == x.1
    · rwa [hk] at h ⊢
    · rw [Bool.of_not_eq_true hk] at h ⊢
      exact ih h

/-- A failed lookup defers to the appended entries. -/
lemma lookup_append_none {α : Type} {l1 l2 : List (String × α)} {k : String}
    (h : l1.lookup k = none) : (l1 ++ l2).lookup k = l2.lookup k := by
  induction l1 with
  | nil => rfl
  | cons x xs ih =>
    rw [List.lookup] at h
    rw [List.cons_append, List.lookup]
    by_cases hk : k == x.1
    · rw [hk] at h
      cases h
    · rw [Bool.of_not_eq_true hk] at h ⊢
      exact ih h

/-- A key outside an association list's keys looks up to none. -/
lemma lookup_none_of_not_mem {α : Type} {l : List (String × α)} {k : String}
    (h : k ∉ l.map Prod.fst) : l.lookup k = none := by
  induction l with
  | nil => rfl
  | cons x xs ih =>
    rw [List.lookup]
    have hk : ¬ (k == x.1) = true := by
      simp only [List.map_cons, List.mem_cons] at h
      simpa using fun he => h (Or.inl he)
    rw [Bool.of_not_eq_true hk]
    exact ih fun hm => h (by simp [hm])

/-- One Stage-1 step leaves the results unchanged or appends the processed
id's entry. -/
lemma stage1Step_shape (env : Stage1Env)
    (results : List (String × CrudeCalcResult)) (c : String) :
    stage1Step env results c = results ∨
    ∃ r, stage1Step env results c = results ++ [(c, r)] := by
  rw [stage1Step]
  cases env.crude_products.find? (fun cp => cp.id == c) with
  | none => exact Or.inl rfl
  | some _ =>
    cases env.cp_bom_map.lookup c with
    | none => exact Or.inl rfl
    | some lines => exact Or.inr ⟨_, rfl⟩

/-- An entry present before the Stage-1 loop keeps its value through it
(entries only get appended, and lookup returns the first hit). -/
lemma stage1Fold_lookup_some (env : Stage1Env) :
    ∀ (l : List String) (acc : List (String × CrudeCalcResult)) (k : String)
      (v : CrudeCalcResult), acc.lookup k = some v →
      ((l.foldl (stage1Step env) acc).lookup k) = some v := by
  intro l
  induction l with
  | nil => intro acc k v h; exact h
  | cons c rest ih =>
    intro acc k v h
    rw [List.foldl_cons]
    apply ih
    rcases stage1Step_shape env acc c with he | ⟨r, he⟩
    · rw [he]; exact h
    · rw [he]; exact lookup_append_some h

/-- Ids not processed by the Stage-1 loop do not change their lookup. -/
lemma stage1Fold_lookup_not_mem (env : Stage1Env) :
    ∀ (l : List String) (acc : List (String × CrudeCalcResult)) (k : String),
      k ∉ l → (l.foldl (stage1Step env) acc).lookup k = acc.lookup k := by
  intro l
  induction l with
  | nil => intro acc k _; rfl
  | cons c rest ih =>
    intro acc k hk
    rw [List.foldl_cons, ih _ k (fun h => hk (List.mem_cons_of_mem c h))]
    rcases stage1Step_shape env acc c with he | ⟨r, he⟩
    · rw [he]
    · rw [he]
      cases hacc : acc.lookup k with
      | some v => exact lookup_append_some hacc
      | none =>
        rw [lookup_append_none hacc, List.lookup]
        have hkc : ¬ (k == c) = true := by
          intro he'
          apply hk
          rw [beq_iff_eq.mp he']
          exact List.mem_cons_self c rest
        rw [Bool.of_not_eq_true hkc]
        rfl

/-- The keys the Stage-1 loop appends form a sublist of the processed ids. -/
lemma stage1Fold_keys (env : Stage1Env) :
    ∀ (l : List String) (acc : List (String × CrudeCalcResult)),
      ∃ s : List String, s.Sublist l ∧
        (l.foldl (stage1Step env) acc).map Prod.fst = acc.map Prod.fst ++ s := by
  intro l
  induction l with
  | nil => intro acc; exact ⟨[], List.Sublist.refl _, by simp⟩
  | cons c rest ih =>
    intro acc
    rcases stage1Step_shape env acc c with he | ⟨r, he⟩
    · rw [List.foldl_cons, he]
      obtain ⟨s, hs, hk⟩ := ih acc
      exact ⟨s, hs.cons c, hk⟩
    · rw [List.foldl_cons, he]
      obtain ⟨s, hs, hk⟩ := ih (acc ++ [(c, r)])
      refine ⟨c :: s, hs.cons₂ c, ?_⟩
      rw [hk]
      simp


/-- The Stage-1 sort key order, as a proposition: non-blend bit first,
then id. -/
lemma cpSortLe_iff (cps : List CrudeProd) (a b : String) :
    cpSortLe cps a b = true ↔
      blendBit cps a < blendBit cps b ∨
        (blendBit cps a = blendBit cps b ∧ a ≤ b) := by
  rw [cpSortLe]
  simp [Bool.or_eq_true, decide_eq_true_iff]

/-- Transitivity of the Stage-1 sort order. -/
lemma cpSortLe_trans (cps : List CrudeProd) (a b c : String)
    (h1 : cpSortLe cps a b = true) (h2 : cpSortLe cps b c = true) :
    cpSortLe cps a c = true := by
  rw [cpSortLe_iff] at h1 h2 ⊢
  rcases h1 with h1 | ⟨h1, h1'⟩ <;> rcases h2 with h2 | ⟨h2, h2'⟩
  · exact Or.inl (h1.trans h2)
  · exact Or.inl (h2 ▸ h1)
  · exact Or.inl (h1 ▸ h2)
  · exact Or.inr ⟨h1.trans h2, h1'.trans h2'⟩

/-- Totality of the Stage-1 sort order. -/
lemma cpSortLe_total (cps : List CrudeProd) (a b : String) :
    (cpSortLe cps a b || cpSortLe cps b a) = true := by
  rw [Bool.or_eq_true, cpSortLe_iff, cpSortLe_iff]
  rcases Nat.lt_trichotomy (blendBit cps a) (blendBit cps b) with h | h | h
  · exact Or.inl (Or.inl h)
  · rcases le_total a b with hab | hab
    · exact Or.inl (Or.inr ⟨h, hab⟩)
    · exact Or.inr (Or.inr ⟨h.symm, hab⟩)
  · exact Or.inr (Or.inl h)

/-- An id of the processed list with a crude-product row and a BOM gets an
entry in the Stage-1 results. -/
lemma stage1Fold_processes (env : Stage1Env) :
    ∀ (l : List String) (acc : List (String × CrudeCalcResult)) (k : String),
      k ∈ l →
      (∃ cp, env.crude_products.find? (fun cp => cp.id == k) = some cp) →
      (∃ lines, env.cp_bom_map.lookup k = some lines) →
      ∃ v, (l.foldl (stage1Step env) acc).lookup k = some v := by
  intro l
  induction l with
  | nil => intro acc k h; cases h
  | cons c rest ih =>
    intro acc k hk hcp hbom
    rw [List.foldl_cons]
    by_cases hkc : k = c
    · subst hkc
      cases hacc : acc.lookup k with
      | some v =>
        refine ⟨v, stage1Fold_lookup_some env rest _ k v ?_⟩
        rcases stage1Step_shape env acc k with he | ⟨r, he⟩
        · rw [he]; exact hacc
        · rw [he]; exact lookup_append_some hacc
      | none =>
        obtain ⟨cp, hcp⟩ := hcp
        obtain ⟨lines, hbom⟩ := hbom
        have hstep : ((stage1Step env acc k).lookup k).isSome = true := by
          simp only [stage1Step, hcp, hbom]
          rw [lookup_append_none hacc, List.lookup]
          simp
        obtain ⟨v, hv⟩ := Option.isSome_iff_exists.mp hstep
        exact ⟨v, stage1Fold_lookup_some env rest _ k v hv⟩
    · rcases List.mem_cons.mp hk with h | h
      · exact absurd h hkc
      · exact ih (stage1Step env acc c) k h hcp hbom

/-- C2 (amended): with non-blend crude products processed before blends,
a blend B whose only BOM line references an already-costed non-blend crude
product A gets prior_process_cost equal to A's previously computed unit
cost times the line quantity, rounded half-up to 4 decimal places. -/
theorem c2_blend_after_inputs (env : Stage1Env) (A B : String) (q loss : ℚ)
    (cpA cpB : CrudeProd) (linesA : List BomLine)
    (hA : env.crude_products.find? (fun cp => cp.id == A) = some cpA)
    (hAnb : cpA.is_blend = false)
    (hB : env.crude_products.find? (fun cp => cp.id == B) = some cpB)
    (hBb : cpB.is_blend = true)
    (hnd : (env.cp_bom_map.map Prod.fst).Nodup)
    (hAbom : env.cp_bom_map.lookup A = some linesA)
    (hAmem : A ∈ env.cp_bom_map.map Prod.fst)
    (hBbom : env.cp_bom_map.lookup B = some [⟨none, some A, q, loss⟩])
    (hBmem : B ∈ env.cp_bom_map.map Prod.fst) :
    ∃ rA rB, (calcStage1 env).lookup A = some rA ∧
      (calcStage1 env).lookup B = some rB ∧
      rB.prior_process_cost = round4 (rA.unit_cost * q) := by
  have hbitA : blendBit env.crude_products A = 0 := by
    simp [blendBit, hA, hAnb]
  have hbitB : blendBit env.crude_products B = 1 := by
    simp [blendBit, hB, hBb]
  have hAB : A ≠ B := fun h => by
    rw [h, hbitB] at hbitA
    cases hbitA
  have hperm := List.mergeSort_perm (env.cp_bom_map.map Prod.fst)
    (cpSortLe env.crude_products)
  have hsorted := List.sorted_mergeSort (cpSortLe_trans env.crude_products)
    (cpSortLe_total env.crude_products) (env.cp_bom_map.map Prod.fst)
  have hnd' := hperm.nodup_iff.mpr hnd
  have hBmem' : B ∈ (env.cp_bom_map.map Prod.fst).mergeSort
      (cpSortLe env.crude_products) := hperm.mem_iff.mpr hBmem
  obtain ⟨l1, l2, hsplit⟩ := List.append_of_mem hBmem'
  have hAmem' : A ∈ (env.cp_bom_map.map Prod.fst).mergeSort
      (cpSortLe env.crude_products) := hperm.mem_iff.mpr hAmem
  rw [hsplit] at hAmem' hsorted hnd'
  have hBl2 : B ∉ l2 := by
    have := (List.nodup_append.mp hnd').2.1
    exact (List.nodup_cons.mp this).1
  have hBl1 : B ∉ l1 := by
    intro hmem
    exact (List.nodup_append.mp hnd').2.2 hmem (List.mem_cons_self B l2)
  have hAl1 : A ∈ l1 := by
    rcases List.mem_append.mp hAmem' with h | h
    · exact h
    · rcases List.mem_cons.mp h with h | h
      · exact absurd h hAB
      · exfalso
        have hp := (List.pairwise_append.mp hsorted).2.1
        have hBA := (List.pairwise_cons.mp hp).1 A h
        rw [cpSortLe_iff, hbitA, hbitB] at hBA
        rcases hBA with h' | ⟨h', _⟩ <;> omega
  obtain ⟨rA, hrA⟩ := stage1Fold_processes env l1 [] A hAl1 ⟨cpA, hA⟩
    ⟨linesA, hAbom⟩
  have hcalc : calcStage1 env =
      l2.foldl (stage1Step env)
        (stage1Step env (l1.foldl (stage1Step env) []) B) := by
    rw [calcStage1, hsplit, List.foldl_append, List.foldl_cons]
  have hline : stage1LineCosts env (l1.foldl (stage1Step env) [])
      [⟨none, some A, q, loss⟩] = (0, 0 + round4 (rA.unit_cost * q)) := by
    rw [stage1LineCosts, List.foldl_cons, List.foldl_nil]
    simp only [hrA]
  obtain ⟨rB, hstepB, hprior⟩ :
      ∃ rB, stage1Step env (l1.foldl (stage1Step env) []) B =
        l1.foldl (stage1Step env) [] ++ [(B, rB)] ∧
        rB.prior_process_cost = round4 (rA.unit_cost * q) := by
    simp only [stage1Step, hB, hBbom, hline]
    exact ⟨_, rfl, zero_add _⟩
  have hBkeys : (l1.foldl (stage1Step env) []).lookup B = none := by
    obtain ⟨s, hs, hk⟩ := stage1Fold_keys env l1 []
    apply lookup_none_of_not_mem
    rw [hk]
    simp only [List.map_nil, List.nil_append]
    exact fun hmem => hBl1 (hs.mem hmem)
  refine ⟨rA, rB, ?_, ?_, hprior⟩
  · rw [hcalc, hstepB]
    exact stage1Fold_lookup_some env l2 _ A rA (lookup_append_some hrA)
  · rw [hcalc, hstepB]
    apply stage1Fold_lookup_some env l2 _ B
    rw [lookup_append_none hBkeys, List.lookup]
    simp

/-- C2 counterexample: the prior-process contribution is quantized per
line. With crude A's unit cost 0.0001 and blend B's only line 0.5 kg of A,
B's prior_process_cost is round4(0.00005) = 0.0001, not the exact product
0.00005 the claim states. -/
theorem c2_counterexample :
    ((calcStage1 ⟨[⟨"m", none, 1/10000, true⟩],
        [⟨"A", false, true⟩, ⟨"B", true, true⟩], ⟨[], [], []⟩, [], [],
        [("A", 1), ("B", 0)],
        [("A", [⟨some "m", none, 1, 0⟩]), ("B", [⟨none, some "A", 1/2, 0⟩])],
        "P"⟩).lookup "B").map (fun r => r.prior_process_cost) =
      some (1/10000) ∧
    ((calcStage1 ⟨[⟨"m", none, 1/10000, true⟩],
        [⟨"A", false, true⟩, ⟨"B", true, true⟩], ⟨[], [], []⟩, [], [],
        [("A", 1), ("B", 0)],
        [("A", [⟨some "m", none, 1, 0⟩]), ("B", [⟨none, some "A", 1/2, 0⟩])],
        "P"⟩).lookup "A").map (fun r => r.unit_cost * (1/2)) =
      some (1/20000) ∧
    (1/10000 : ℚ) ≠ 1/20000 := by
  refine ⟨?_, ?_, by norm_num⟩ <;>
    norm_num [calcStage1, stage1Step, stage1LineCosts, stage1UnitCost,
      resolve_material_price, cpSortLe, blendBit, round4, rhalfUp,
      List.mergeSort, List.merge, List.lookup,
      show (("B" : String) == "A") = false from rfl,
      show (("A" : String) == "A") = true from rfl,
      show (("B" : String) == "B") = true from rfl,
      show (("A" : String) == "B") = false from rfl,
      show (("m" : String) == "m") = true from rfl]

/-- C2 witness: the claim's own example — non-blend A costed from a
10.0000-priced material and blend B given as "6 kg of A", listed before A
in the BOM map so the non-blend-first sort must reorder them. -/
theorem c2_blend_after_inputs_witness :
    ∃ rA rB, (calcStage1 ⟨[⟨"m", none, 10, true⟩],
        [⟨"A", false, true⟩, ⟨"B", true, true⟩], ⟨[], [], []⟩, [], [],
        [("A", 1), ("B", 0)],
        [("B", [⟨none, some "A", 6, 0⟩]), ("A", [⟨some "m", none, 1, 0⟩])],
        "P"⟩).lookup "A" = some rA ∧
      (calcStage1 ⟨[⟨"m", none, 10, true⟩],
        [⟨"A", false, true⟩, ⟨"B", true, true⟩], ⟨[], [], []⟩, [], [],
        [("A", 1), ("B", 0)],
        [("B", [⟨none, some "A", 6, 0⟩]), ("A", [⟨some "m", none, 1, 0⟩])],
        "P"⟩).lookup "B" = some rB ∧
      rB.prior_process_cost = round4 (rA.unit_cost * 6) :=
  c2_blend_after_inputs
    ⟨[⟨"m", none, 10, true⟩],
      [⟨"A", false, true⟩, ⟨"B", true, true⟩], ⟨[], [], []⟩, [], [],
      [("A", 1), ("B", 0)],
      [("B", [⟨none, some "A", 6, 0⟩]), ("A", [⟨some "m", none, 1, 0⟩])],
      "P"⟩
    "A" "B" 6 0 ⟨"A", false, true⟩ ⟨"B", true, true⟩ [⟨some "m", none, 1, 0⟩]
    rfl rfl rfl rfl (by simp) rfl (by simp) rfl (by simp)

/-- A copy run over source rows none of which has a target-period row yet
inserts every row and tallies them all as copied. -/
lemma copyCrudeFold_fresh (p2 : String) (ow : Bool) :
    ∀ (srcRows table : List CrudeCostRow) (c s u : ℕ),
      ((srcRows.map (fun r => r.crude_product_id)).Nodup) →
      (∀ r ∈ table, r.period_id = p2 →
        r.crude_product_id ∉ srcRows.map (fun r => r.crude_product_id)) →
      srcRows.foldl (copyCrudeStep p2 ow) ⟨table, c, s, u⟩ =
        ⟨table ++ srcRows.map (fun r => copyCrudeNew r p2),
          c + srcRows.length, s, u⟩ := by
  intro srcRows
  induction srcRows with
  | nil =>
    intro table c s u _ _
    simp
  | cons x xs ih =>
    intro table c s u hnd htgt
    rw [List.foldl_cons]
    have hfind : table.find? (crudeKeyMatch x.crude_product_id p2) = none := by
      rw [List.find?_eq_none]
      intro r hr
      rw [crudeKeyMatch]
      by_cases hper : r.period_id = p2
      · have := htgt r hr hper
        have hcp : r.crude_product_id ≠ x.crude_product_id := by
          intro he
          exact this (by simp [he])
        simp [hcp]
      · simp [hper]
    rw [copyCrudeStep, hfind]
    rw [ih (table ++ [copyCrudeNew x p2]) (c + 1) s u
      (List.nodup_cons.mp hnd).2 ?_]
    · rw [List.append_assoc]
      simp [Nat.add_assoc, Nat.add_comm 1 xs.length]
    · intro r hr hper
      rcases List.mem_append.mp hr with h | h
      · intro hm
        exact htgt r h hper (List.mem_cons_of_mem _ hm)
      · simp only [List.mem_singleton] at h
        subst h
        rw [copyCrudeNew]
        exact (List.nodup_cons.mp hnd).1


/-- A non-overwrite copy run whose every source row already has a target
row changes nothing and tallies every row as skipped. -/
lemma copyCrudeFold_skip (p2 : String) :
    ∀ (srcRows table : List CrudeCostRow) (c s u : ℕ),
      (∀ x ∈ srcRows,
        (table.find? (crudeKeyMatch x.crude_product_id p2)).isSome) →
      srcRows.foldl (copyCrudeStep p2 false) ⟨table, c, s, u⟩ =
        ⟨table, c, s + srcRows.length, u⟩ := by
  intro srcRows
  induction srcRows with
  | nil =>
    intro table c s u _
    simp
  | cons x xs ih =>
    intro table c s u hfound
    rw [List.foldl_cons]
    obtain ⟨r0, hr0⟩ := Option.isSome_iff_exists.mp
      (hfound x (List.mem_cons_self x xs))
    rw [copyCrudeStep, hr0]
    simp only [Bool.false_eq_true, if_false]
    rw [ih table c (s + 1) u
      (fun y hy => hfound y (List.mem_cons_of_mem x hy))]
    simp [Nat.add_assoc, Nat.add_comm 1 xs.length]

/-- `updateFirst` with a key-preserving update keeps the table's key pairs. -/
lemma updateFirst_crude_keys (p : CrudeCostRow → Bool) (src : CrudeCostRow) :
    ∀ table : List CrudeCostRow,
      (updateFirst p (copyCrudeApply src) table).map
        (fun r => (r.crude_product_id, r.period_id)) =
      table.map (fun r => (r.crude_product_id, r.period_id)) := by
  intro table
  induction table with
  | nil => rfl
  | cons x xs ih =>
    rw [updateFirst]
    by_cases hp : p x
    · rw [if_pos hp]
      simp only [List.map_cons]
      rfl
    · rw [if_neg hp]
      simp only [List.map_cons]
      rw [ih]

/-- An overwrite copy run whose every source row has a target row updates
in place: the key pairs are unchanged and every row tallies as updated. -/
lemma copyCrudeFold_update (p2 : String) :
    ∀ (srcRows table : List CrudeCostRow) (c s u : ℕ),
      (∀ x ∈ srcRows, ∃ r ∈ table,
        r.crude_product_id = x.crude_product_id ∧ r.period_id = p2) →
      ∃ table', srcRows.foldl (copyCrudeStep p2 true) ⟨table, c, s, u⟩ =
        ⟨table', c, s, u + srcRows.length⟩ ∧
        table'.map (fun r => (r.crude_product_id, r.period_id)) =
          table.map (fun r => (r.crude_product_id, r.period_id)) := by
  intro srcRows
  induction srcRows with
  | nil =>
    intro table c s u _
    exact ⟨table, by simp, rfl⟩
  | cons x xs ih =>
    intro table c s u hfound
    rw [List.foldl_cons]
    have hex := hfound x (List.mem_cons_self x xs)
    have hsome : (table.find? (crudeKeyMatch x.crude_product_id p2)).isSome := by
      rw [List.find?_isSome]
      obtain ⟨r, hr, h1, h2⟩ := hex
      exact ⟨r, hr, by simp [crudeKeyMatch, h1, h2]⟩
    obtain ⟨r0, hr0⟩ := Option.isSome_iff_exists.mp hsome
    rw [copyCrudeStep, hr0]
    simp only [if_true]
    have hnext : ∀ y ∈ xs, ∃ r ∈ updateFirst
        (crudeKeyMatch x.crude_product_id p2) (copyCrudeApply x) table,
        r.crude_product_id = y.crude_product_id ∧ r.period_id = p2 := by
      intro y hy
      obtain ⟨r, hr, h1, h2⟩ := hfound y (List.mem_cons_of_mem x hy)
      have hmem : (r.crude_product_id, r.period_id) ∈
          (updateFirst (crudeKeyMatch x.crude_product_id p2)
            (copyCrudeApply x) table).map
            (fun r => (r.crude_product_id, r.period_id)) := by
        rw [updateFirst_crude_keys]
        exact List.mem_map.mpr ⟨r, hr, rfl⟩
      obtain ⟨r', hr', he⟩ := List.mem_map.mp hmem
      obtain ⟨he1, he2⟩ := Prod.mk.injEq .. ▸ he
      exact ⟨r', hr', by rw [he1, h1], by rw [he2, h2]⟩
    obtain ⟨table', hfold, hkeys⟩ := ih
      (updateFirst (crudeKeyMatch x.crude_product_id p2) (copyCrudeApply x) table)
      c s (u + 1) hnext
    refine ⟨table', ?_, ?_⟩
    · rw [hfold]
      simp [Nat.add_assoc, Nat.add_comm 1 xs.length]
    · rw [hkeys, updateFirst_crude_keys]

/-- A copy run over source rows none of which has a target-period row yet
inserts every row and tallies them all as copied. -/
lemma copyProductFold_fresh (p2 : String) (ow : Bool) :
    ∀ (srcRows table : List StandardCostRow) (c s u : ℕ),
      ((srcRows.map (fun r => r.product_id)).Nodup) →
      (∀ r ∈ table, r.period_id = p2 →
        r.product_id ∉ srcRows.map (fun r => r.product_id)) →
      srcRows.foldl (copyProductStep p2 ow) ⟨table, c, s, u⟩ =
        ⟨table ++ srcRows.map (fun r => copyProductNew r p2),
          c + srcRows.length, s, u⟩ := by
  intro srcRows
  induction srcRows with
  | nil =>
    intro table c s u _ _
    simp
  | cons x xs ih =>
    intro table c s u hnd htgt
    rw [List.foldl_cons]
    have hfind : table.find? (productKeyMatch x.product_id p2) = none := by
      rw [List.find?_eq_none]
      intro r hr
      rw [productKeyMatch]
      by_cases hper : r.period_id = p2
      · have := htgt r hr hper
        have hcp : r.product_id ≠ x.product_id := by
          intro he
          exact this (by simp [he])
        simp [hcp]
      · simp [hper]
    rw [copyProductStep, hfind]
    rw [ih (table ++ [copyProductNew x p2]) (c + 1) s u
      (List.nodup_cons.mp hnd).2 ?_]
    · rw [List.append_assoc]
      simp [Nat.add_assoc, Nat.add_comm 1 xs.length]
    · intro r hr hper
      rcases List.mem_append.mp hr with h | h
      · intro hm
        exact htgt r h hper (List.mem_cons_of_mem _ hm)
      · simp only [List.mem_singleton] at h
        subst h
        rw [copyProductNew]
        exact (List.nodup_cons.mp hnd).1


/-- A non-overwrite copy run whose every source row already has a target
row changes nothing and tallies every row as skipped. -/
lemma copyProductFold_skip (p2 : String) :
    ∀ (srcRows table : List StandardCostRow) (c s u : ℕ),
      (∀ x ∈ srcRows,
        (table.find? (productKeyMatch x.product_id p2)).isSome) →
      srcRows.foldl (copyProductStep p2 false) ⟨table, c, s, u⟩ =
        ⟨table, c, s + srcRows.length, u⟩ := by
  intro srcRows
  induction srcRows with
  | nil =>
    intro table c s u _
    simp
  | cons x xs ih =>
    intro table c s u hfound
    rw [List.foldl_cons]
    obtain ⟨r0, hr0⟩ := Option.isSome_iff_exists.mp
      (hfound x (List.mem_cons_self x xs))
    rw [copyProductStep, hr0]
    simp only [Bool.false_eq_true, if_false]
    rw [ih table c (s + 1) u
      (fun y hy => hfound y (List.mem_cons_of_mem x hy))]
    simp [Nat.add_assoc, Nat.add_comm 1 xs.length]

/-- `updateFirst` with a key-preserving update keeps the table's key pairs. -/
lemma updateFirst_product_keys (p : StandardCostRow → Bool) (src : StandardCostRow) :
    ∀ table : List StandardCostRow,
      (updateFirst p (copyProductApply src) table).map
        (fun r => (r.product_id, r.period_id)) =
      table.map (fun r => (r.product_id, r.period_id)) := by
  intro table
  induction table with
  | nil => rfl
  | cons x xs ih =>
    rw [updateFirst]
    by_cases hp : p x
    · rw [if_pos hp]
      simp only [List.map_cons]
      rfl
    · rw [if_neg hp]
      simp only [List.map_cons]
      rw [ih]

/-- An overwrite copy run whose every source row has a target row updates
in place: the key pairs are unchanged and every row tallies as updated. -/
lemma copyProductFold_update (p2 : String) :
    ∀ (srcRows table : List StandardCostRow) (c s u : ℕ),
      (∀ x ∈ srcRows, ∃ r ∈ table,
        r.product_id = x.product_id ∧ r.period_id = p2) →
      ∃ table', srcRows.foldl (copyProductStep p2 true) ⟨table, c, s, u⟩ =
        ⟨table', c, s, u + srcRows.length⟩ ∧
        table'.map (fun r => (r.product_id, r.period_id)) =
          table.map (fun r => (r.product_id, r.period_id)) := by
  intro srcRows
  induction srcRows with
  | nil =>
    intro table c s u _
    exact ⟨table, by simp, rfl⟩
  | cons x xs ih =>
    intro table c s u hfound
    rw [List.foldl_cons]
    have hex := hfound x (List.mem_cons_self x xs)
    have hsome : (table.find? (productKeyMatch x.product_id p2)).isSome := by
      rw [List.find?_isSome]
      obtain ⟨r, hr, h1, h2⟩ := hex
      exact ⟨r, hr, by simp [productKeyMatch, h1, h2]⟩
    obtain ⟨r0, hr0⟩ := Option.isSome_iff_exists.mp hsome
    rw [copyProductStep, hr0]
    simp only [if_true]
    have hnext : ∀ y ∈ xs, ∃ r ∈ updateFirst
        (productKeyMatch x.product_id p2) (copyProductApply x) table,
        r.product_id = y.product_id ∧ r.period_id = p2 := by
      intro y hy
      obtain ⟨r, hr, h1, h2⟩ := hfound y (List.mem_cons_of_mem x hy)
      have hmem : (r.product_id, r.period_id) ∈
          (updateFirst (productKeyMatch x.product_id p2)
            (copyProductApply x) table).map
            (fun r => (r.product_id, r.period_id)) := by
        rw [updateFirst_product_keys]
        exact List.mem_map.mpr ⟨r, hr, rfl⟩
      obtain ⟨r', hr', he⟩ := List.mem_map.mp hmem
      obtain ⟨he1, he2⟩ := Prod.mk.injEq .. ▸ he
      exact ⟨r', hr', by rw [he1, h1], by rw [he2, h2]⟩
    obtain ⟨table', hfold, hkeys⟩ := ih
      (updateFirst (productKeyMatch x.product_id p2) (copyProductApply x) table)
      c s (u + 1) hnext
    refine ⟨table', ?_, ?_⟩
    · rw [hfold]
      simp [Nat.add_assoc, Nat.add_comm 1 xs.length]
    · rw [hkeys, updateFirst_product_keys]


/-- C9: copy_standard_costs is idempotent in its counters. From a state
whose target period has no rows, the first run reports every row copied;
rerunning with overwrite=false reports every row skipped and leaves the
database unchanged; rerunning with overwrite=true reports every row
updated. -/
theorem c9_copy_idempotent_counters (db : DB) (p1 p2 : String)
    (hp1 : p1 ∈ db.fiscal_periods) (hp2 : p2 ∈ db.fiscal_periods)
    (hne : p1 ≠ p2)
    (hcnd : ((db.crude_standard_costs.filter
      (fun r => r.period_id == p1)).map (fun r => r.crude_product_id)).Nodup)
    (hpnd : ((db.standard_costs.filter
      (fun r => r.period_id == p1)).map (fun r => r.product_id)).Nodup)
    (hctgt : ∀ r ∈ db.crude_standard_costs, r.period_id ≠ p2)
    (hptgt : ∀ r ∈ db.standard_costs, r.period_id ≠ p2) :
    ∃ db1 db2 : DB,
      copy_standard_costs db p1 p2 false = .ok (db1,
        { crude_product_costs_copied := (db.crude_standard_costs.filter
            (fun r => r.period_id == p1)).length
          crude_product_costs_skipped := 0
          crude_product_costs_updated := 0
          product_costs_copied := (db.standard_costs.filter
            (fun r => r.period_id == p1)).length
          product_costs_skipped := 0
          product_costs_updated := 0 }) ∧
      copy_standard_costs db1 p1 p2 false = .ok (db1,
        { crude_product_costs_copied := 0
          crude_product_costs_skipped := (db.crude_standard_costs.filter
            (fun r => r.period_id == p1)).length
          crude_product_costs_updated := 0
          product_costs_copied := 0
          product_costs_skipped := (db.standard_costs.filter
            (fun r => r.period_id == p1)).length
          product_costs_updated := 0 }) ∧
      copy_standard_costs db1 p1 p2 true = .ok (db2,
        { crude_product_costs_copied := 0
          crude_product_costs_skipped := 0
          crude_product_costs_updated := (db.crude_standard_costs.filter
            (fun r => r.period_id == p1)).length
          product_costs_copied := 0
          product_costs_skipped := 0
          product_costs_updated := (db.standard_costs.filter
            (fun r => r.period_id == p1)).length }) := by
  have hfold1c := copyCrudeFold_fresh p2 false
    (db.crude_standard_costs.filter (fun r => r.period_id == p1))
    db.crude_standard_costs 0 0 0 hcnd
    (fun r hr hper => (hctgt r hr hper).elim)
  have hfold1p := copyProductFold_fresh p2 false
    (db.standard_costs.filter (fun r => r.period_id == p1))
    db.standard_costs 0 0 0 hpnd
    (fun r hr hper => (hptgt r hr hper).elim)
  have hsrc2c : (db.crude_standard_costs ++
      (db.crude_standard_costs.filter (fun r => r.period_id == p1)).map
        (fun r => copyCrudeNew r p2)).filter (fun r => r.period_id == p1) =
      db.crude_standard_costs.filter (fun r => r.period_id == p1) := by
    rw [List.filter_append]
    have hnil : ((db.crude_standard_costs.filter
        (fun r => r.period_id == p1)).map (fun r => copyCrudeNew r p2)).filter
        (fun r => r.period_id == p1) = [] := by
      rw [List.filter_eq_nil_iff]
      intro r hr
      obtain ⟨x, _, rfl⟩ := List.mem_map.mp hr
      rw [copyCrudeNew]
      simp only [beq_iff_eq]
      exact fun h => hne h.symm
    rw [hnil, List.append_nil]
  have hsrc2p : (db.standard_costs ++
      (db.standard_costs.filter (fun r => r.period_id == p1)).map
        (fun r => copyProductNew r p2)).filter (fun r => r.period_id == p1) =
      db.standard_costs.filter (fun r => r.period_id == p1) := by
    rw [List.filter_append]
    have hnil : ((db.standard_costs.filter
        (fun r => r.period_id == p1)).map (fun r => copyProductNew r p2)).filter
        (fun r => r.period_id == p1) = [] := by
      rw [List.filter_eq_nil_iff]
      intro r hr
      obtain ⟨x, _, rfl⟩ := List.mem_map.mp hr
      rw [copyProductNew]
      simp only [beq_iff_eq]
      exact fun h => hne h.symm
    rw [hnil, List.append_nil]
  have hfoundc : ∀ x ∈ db.crude_standard_costs.filter
      (fun r => r.period_id == p1),
      ((db.crude_standard_costs ++
        (db.crude_standard_costs.filter (fun r => r.period_id == p1)).map
          (fun r => copyCrudeNew r p2)).find?
        (crudeKeyMatch x.crude_product_id p2)).isSome := by
    intro x hx
    rw [List.find?_isSome]
    refine ⟨copyCrudeNew x p2,
      List.mem_append.mpr (Or.inr (List.mem_map.mpr ⟨x, hx, rfl⟩)), ?_⟩
    rw [crudeKeyMatch, copyCrudeNew]
    simp
  have hfoundp : ∀ x ∈ db.standard_costs.filter (fun r => r.period_id == p1),
      ((db.standard_costs ++
        (db.standard_costs.filter (fun r => r.period_id == p1)).map
          (fun r => copyProductNew r p2)).find?
        (productKeyMatch x.product_id p2)).isSome := by
    intro x hx
    rw [List.find?_isSome]
    refine ⟨copyProductNew x p2,
      List.mem_append.mpr (Or.inr (List.mem_map.mpr ⟨x, hx, rfl⟩)), ?_⟩
    rw [productKeyMatch, copyProductNew]
    simp
  have hskipc := copyCrudeFold_skip p2
    (db.crude_standard_costs.filter (fun r => r.period_id == p1))
    (db.crude_standard_costs ++
      (db.crude_standard_costs.filter (fun r => r.period_id == p1)).map
        (fun r => copyCrudeNew r p2)) 0 0 0 hfoundc
  have hskipp := copyProductFold_skip p2
    (db.standard_costs.filter (fun r => r.period_id == p1))
    (db.standard_costs ++
      (db.standard_costs.filter (fun r => r.period_id == p1)).map
        (fun r => copyProductNew r p2)) 0 0 0 hfoundp
  obtain ⟨tablec, hupdc, _⟩ := copyCrudeFold_update p2
    (db.crude_standard_costs.filter (fun r => r.period_id == p1))
    (db.crude_standard_costs ++
      (db.crude_standard_costs.filter (fun r => r.period_id == p1)).map
        (fun r => copyCrudeNew r p2)) 0 0 0
    (fun x hx => ⟨copyCrudeNew x p2,
      List.mem_append.mpr (Or.inr (List.mem_map.mpr ⟨x, hx, rfl⟩)), rfl, rfl⟩)
  obtain ⟨tablep, hupdp, _⟩ := copyProductFold_update p2
    (db.standard_costs.filter (fun r => r.period_id == p1))
    (db.standard_costs ++
      (db.standard_costs.filter (fun r => r.period_id == p1)).map
        (fun r => copyProductNew r p2)) 0 0 0
    (fun x hx => ⟨copyProductNew x p2,
      List.mem_append.mpr (Or.inr (List.mem_map.mpr ⟨x, hx, rfl⟩)), rfl, rfl⟩)
  refine ⟨{ db with
      crude_standard_costs := db.crude_standard_costs ++
        (db.crude_standard_costs.filter (fun r => r.period_id == p1)).map
          (fun r => copyCrudeNew r p2)
      standard_costs := db.standard_costs ++
        (db.standard_costs.filter (fun r => r.period_id == p1)).map
          (fun r => copyProductNew r p2) },
    { db with
      crude_standard_costs := tablec
      standard_costs := tablep }, ?_, ?_, ?_⟩
  · simp only [copy_standard_costs, if_neg hne, if_neg (not_not_intro hp1),
      if_neg (not_not_intro hp2), hfold1c, hfold1p]
    simp
  · simp only [copy_standard_costs, if_neg hne, if_neg (not_not_intro hp1),
      if_neg (not_not_intro hp2), hsrc2c, hsrc2p, hskipc, hskipp]
    simp
  · simp only [copy_standard_costs, if_neg hne, if_neg (not_not_intro hp1),
      if_neg (not_not_intro hp2), hsrc2c, hsrc2p, hupdc, hupdp]
    simp

/-- C9 witness: a single crude row and a single product row in P1, copied
to the empty period P2 (first run all copied; rerun all skipped with no
change; overwriting rerun all updated). -/
theorem c9_copy_idempotent_counters_witness :
    ∃ db1 db2 : DB,
      copy_standard_costs
        ⟨[], [], [], [], [], [], [], ["P1", "P2"],
          [⟨"cp1", "P1", 1, 0, 0, 0, 1, 1, 1, none⟩],
          [⟨"pr1", "P1", 1, 0, 0, 0, 0, 1, 1, 1, none⟩], [], [], []⟩
        "P1" "P2" false = .ok (db1,
        { crude_product_costs_copied :=
            ((⟨[], [], [], [], [], [], [], ["P1", "P2"],
              [⟨"cp1", "P1", 1, 0, 0, 0, 1, 1, 1, none⟩],
              [⟨"pr1", "P1", 1, 0, 0, 0, 0, 1, 1, 1, none⟩], [], [], []⟩ :
                DB).crude_standard_costs.filter
              (fun r => r.period_id == "P1")).length
          crude_product_costs_skipped := 0
          crude_product_costs_updated := 0
          product_costs_copied :=
            ((⟨[], [], [], [], [], [], [], ["P1", "P2"],
              [⟨"cp1", "P1", 1, 0, 0, 0, 1, 1, 1, none⟩],
              [⟨"pr1", "P1", 1, 0, 0, 0, 0, 1, 1, 1, none⟩], [], [], []⟩ :
                DB).standard_costs.filter
              (fun r => r.period_id == "P1")).length
          product_costs_skipped := 0
          product_costs_updated := 0 }) ∧
      copy_standard_costs db1 "P1" "P2" false = .ok (db1,
        { crude_product_costs_copied := 0
          crude_product_costs_skipped :=
            ((⟨[], [], [], [], [], [], [], ["P1", "P2"],
              [⟨"cp1", "P1", 1, 0, 0, 0, 1, 1, 1, none⟩],
              [⟨"pr1", "P1", 1, 0, 0, 0, 0, 1, 1, 1, none⟩], [], [], []⟩ :
                DB).crude_standard_costs.filter
              (fun r => r.period_id == "P1")).length
          crude_product_costs_updated := 0
          product_costs_copied := 0
          product_costs_skipped :=
            ((⟨[], [], [], [], [], [], [], ["P1", "P2"],
              [⟨"cp1", "P1", 1, 0, 0, 0, 1, 1, 1, none⟩],
              [⟨"pr1", "P1", 1, 0, 0, 0, 0, 1, 1, 1, none⟩], [], [], []⟩ :
                DB).standard_costs.filter
              (fun r => r.period_id == "P1")).length
          product_costs_updated := 0 }) ∧
      copy_standard_costs db1 "P1" "P2" true = .ok (db2,
        { crude_product_costs_copied := 0
          crude_product_costs_skipped := 0
          crude_product_costs_updated :=
            ((⟨[], [], [], [], [], [], [], ["P1", "P2"],
              [⟨"cp1", "P1", 1, 0, 0, 0, 1, 1, 1, none⟩],
              [⟨"pr1", "P1", 1, 0, 0, 0, 0, 1, 1, 1, none⟩], [], [], []⟩ :
                DB).crude_standard_costs.filter
              (fun r => r.period_id == "P1")).length
          product_costs_copied := 0
          product_costs_skipped := 0
          product_costs_updated :=
            ((⟨[], [], [], [], [], [], [], ["P1", "P2"],
              [⟨"cp1", "P1", 1, 0, 0, 0, 1, 1, 1, none⟩],
              [⟨"pr1", "P1", 1, 0, 0, 0, 0, 1, 1, 1, none⟩], [], [], []⟩ :
                DB).standard_costs.filter
              (fun r => r.period_id == "P1")).length }) :=
  c9_copy_idempotent_counters
    ⟨[], [], [], [], [], [], [], ["P1", "P2"],
      [⟨"cp1", "P1", 1, 0, 0, 0, 1, 1, 1, none⟩],
      [⟨"pr1", "P1", 1, 0, 0, 0, 0, 1, 1, 1, none⟩], [], [], []⟩
    "P1" "P2" (by decide) (by decide) (by decide) (by simp) (by simp)
    (by decide) (by decide)

/-- The allocation maps `execute_rule_based_allocation` returns, in closed
form: they do not depend on the simulate flag or the audit rows. -/
lemma execRBA_snd (rules : List AllocationRule) (scc : String)
    (budgets : List (String × ℚ)) (item_data : List (String × ItemData))
    (period_id : Option String) (simulate : Bool) (basis : AllocationBasis) :
    (execute_rule_based_allocation rules scc budgets item_data period_id
      simulate basis).2 =
      budgets.map (fun be =>
        (be.1, if be.2 = 0 then item_data.map (fun p => (p.1, (0 : ℚ)))
          else execAllocationOf (load_allocation_rules rules scc) item_data
            basis be.1 be.2)) := by
  rw [execute_rule_based_allocation, execRBA_entries]
  rw [List.nil_append]

/-- One simulated allocation-loop step adds no CostAllocation rows. -/
lemma execAllocStep_rows_simulate (rules : List AllocationRule) (scc : String)
    (item_data : List (String × ItemData)) (period_id : Option String)
    (basis : AllocationBasis)
    (st : List CostAllocationRow × List (String × List (String × ℚ)))
    (be : String × ℚ) :
    (execAllocStep rules scc item_data period_id true basis st be).1 = st.1 := by
  rw [execAllocStep]
  by_cases hz : be.2 = 0
  · rw [if_pos hz]
  · rw [if_neg hz]
    cases period_id <;> cases hfm : find_matching_rule rules be.1 <;>
      simp [hfm]

/-- A simulated `execute_rule_based_allocation` run writes no
CostAllocation rows. -/
lemma execRBA_rows_simulate (rules : List AllocationRule) (scc : String)
    (budgets : List (String × ℚ)) (item_data : List (String × ItemData))
    (period_id : Option String) (basis : AllocationBasis) :
    (execute_rule_based_allocation rules scc budgets item_data period_id
      true basis).1 = [] := by
  rw [execute_rule_based_allocation]
  suffices h : ∀ st, ((budgets.foldl (execAllocStep
      (load_allocation_rules rules scc) scc item_data period_id true basis)
      st).1) = st.1 from h ([], [])
  induction budgets with
  | nil => intro st; rfl
  | cons be rest ih =>
    intro st
    rw [List.foldl_cons, ih]
    exact execAllocStep_rows_simulate _ _ _ _ _ st be

/-- Stage 1's allocation maps do not depend on the simulate flag. -/
lemma stage1Allocation_snd (db : DB) (period_id : String) (ov : Overrides)
    (s1 s2 : Bool) :
    (stage1Allocation db period_id s1 ov).2 =
      (stage1Allocation db period_id s2 ov).2 := by
  rw [stage1Allocation, stage1Allocation]
  cases load_budgets db period_id CostCenterType.manufacturing with
  | none => rfl
  | some b => simp only [execRBA_snd]

/-- A simulated Stage-1 allocation writes no CostAllocation rows. -/
lemma stage1Allocation_rows_simulate (db : DB) (period_id : String)
    (ov : Overrides) :
    (stage1Allocation db period_id true ov).1 = [] := by
  rw [stage1Allocation]
  cases load_budgets db period_id CostCenterType.manufacturing with
  | none => rfl
  | some b => simp only [execRBA_rows_simulate]

/-- Stage 2's allocation maps do not depend on the simulate flag. -/
lemma stage2Allocation_snd (db : DB) (period_id : String)
    (product_ids : Option (List String)) (ov : Overrides) (s1 s2 : Bool) :
    (stage2Allocation db period_id product_ids s1 ov).2 =
      (stage2Allocation db period_id product_ids s2 ov).2 := by
  rw [stage2Allocation, stage2Allocation]
  cases load_budgets db period_id CostCenterType.product with
  | none => rfl
  | some b => simp only [execRBA_snd]

/-- A simulated Stage-2 allocation writes no CostAllocation rows. -/
lemma stage2Allocation_rows_simulate (db : DB) (period_id : String)
    (product_ids : Option (List String)) (ov : Overrides) :
    (stage2Allocation db period_id product_ids true ov).1 = [] := by
  rw [stage2Allocation]
  cases load_budgets db period_id CostCenterType.product with
  | none => rfl
  | some b => simp only [execRBA_rows_simulate]

/-- The computed crude results do not depend on the simulate flag. -/
lemma crudeResultsOf_simulate (db : DB) (period_id : String) (ov : Overrides)
    (s1 s2 : Bool) :
    crudeResultsOf db period_id s1 ov = crudeResultsOf db period_id s2 ov := by
  rw [crudeResultsOf, crudeResultsOf, stage1EnvOf, stage1EnvOf,
    stage1Allocation_snd db period_id ov s1 s2]

/-- The computed product results do not depend on the simulate flag. -/
lemma productResultsOf_simulate (db : DB) (period_id : String)
    (product_ids : Option (List String)) (ov : Overrides) (s1 s2 : Bool) :
    productResultsOf db period_id product_ids s1 ov =
      productResultsOf db period_id product_ids s2 ov := by
  rw [productResultsOf, productResultsOf,
    stage2Allocation_snd db period_id product_ids ov s1 s2,
    crudeResultsOf_simulate db period_id ov s1 s2]

/-- A successful find? is unchanged by appending rows. -/
lemma find?_append_some {α : Type} {p : α → Bool} {l1 l2 : List α} {r : α}
    (h : l1.find? p = some r) : (l1 ++ l2).find? p = some r := by
  induction l1 with
  | nil => cases h
  | cons x xs ih =>
    rw [List.cons_append]
    by_cases hx : p x
    · rw [List.find?_cons_of_pos _ hx] at h ⊢
      exact h
    · rw [List.find?_cons_of_neg _ hx] at h ⊢
      exact ih h

/-- A failed find? defers to the appended rows. -/
lemma find?_append_none {α : Type} {p : α → Bool} {l1 l2 : List α}
    (h : l1.find? p = none) : (l1 ++ l2).find? p = l2.find? p := by
  induction l1 with
  | nil => rfl
  | cons x xs ih =>
    rw [List.cons_append]
    by_cases hx : p x
    · rw [List.find?_cons_of_pos _ hx] at h
      cases h
    · rw [List.find?_cons_of_neg _ hx] at h ⊢
      exact ih h

/-- Updating the first `p`-row with a `p`-status-preserving map turns the
found row into its image. -/
lemma find?_updateFirst_self {α : Type} {p : α → Bool} {f : α → α}
    (hf : ∀ r, p (f r) = p r) :
    ∀ {l : List α} {r : α}, l.find? p = some r →
      (updateFirst p f l).find? p = some (f r) := by
  intro l
  induction l with
  | nil => intro r h; cases h
  | cons x xs ih =>
    intro r h
    rw [updateFirst]
    by_cases hx : p x
    · rw [List.find?_cons_of_pos _ hx] at h
      cases h
      rw [if_pos hx]
      rw [List.find?_cons_of_pos _ ((hf x).symm ▸ hx)]
    · rw [List.find?_cons_of_neg _ hx] at h
      rw [if_neg hx, List.find?_cons_of_neg _ hx]
      exact ih h

/-- Updating the first `q`-row does not disturb a find? for a predicate no
row satisfies together with `q`. -/
lemma find?_updateFirst_other {α : Type} {p q : α → Bool} {f : α → α}
    (hpq : ∀ r, ¬(p r = true ∧ q r = true)) (hf : ∀ r, p (f r) = p r) :
    ∀ l : List α, (updateFirst q f l).find? p = l.find? p := by
  intro l
  induction l with
  | nil => rfl
  | cons x xs ih =>
    rw [updateFirst]
    by_cases hq : q x
    · rw [if_pos hq]
      have hpx : ¬ p x = true := fun hp => hpq x ⟨hp, hq⟩
      have hpfx : ¬ p (f x) = true := fun hp => hpx ((hf x) ▸ hp)
      rw [List.find?_cons_of_neg _ hpfx, List.find?_cons_of_neg _ hpx]
    · rw [if_neg hq]
      by_cases hp : p x
      · rw [List.find?_cons_of_pos _ hp, List.find?_cons_of_pos _ hp]
      · rw [List.find?_cons_of_neg _ hp, List.find?_cons_of_neg _ hp]
        exact ih

/-- Upserts for other crude items do not disturb an item's found row. -/
lemma persistCrude_find_preserved :
    ∀ (ds : List CrudeCalcResult) (table : List CrudeCostRow)
      (cp per : String) (row : CrudeCostRow),
      (∀ x ∈ ds, x.crude_product_id ≠ cp) →
      table.find? (crudeKeyMatch cp per) = some row →
      (persistCrude table ds).1.find? (crudeKeyMatch cp per) = some row := by
  intro ds
  induction ds with
  | nil => intro table cp per row _ h; exact h
  | cons x xs ih =>
    intro table cp per row hne h
    rw [persistCrude]
    apply ih _ cp per row (fun y hy => hne y (List.mem_cons_of_mem x hy))
    have hdisj : ∀ r : CrudeCostRow,
        ¬(crudeKeyMatch cp per r = true ∧
          crudeKeyMatch x.crude_product_id x.period_id r = true) := by
      intro r hr
      obtain ⟨h1, h2⟩ := hr
      simp only [crudeKeyMatch, Bool.and_eq_true, beq_iff_eq] at h1 h2
      apply hne x (List.mem_cons_self x xs)
      rw [← h2.1]
      exact h1.1
    cases hfind : table.find? (crudeKeyMatch x.crude_product_id x.period_id) with
    | some r0 =>
      simp only [upsertCrude, hfind]
      rw [find?_updateFirst_other (f := applyCrude x) hdisj (fun r => rfl)]
      exact h
    | none =>
      simp only [upsertCrude, hfind]
      exact find?_append_some h

/-- After the save loop, each computed crude item's (item, period) row
holds that item's computed cost fields. -/
lemma persistCrude_find :
    ∀ (ds : List CrudeCalcResult) (table : List CrudeCostRow)
      (d : CrudeCalcResult), d ∈ ds →
      ((ds.map (fun x => x.crude_product_id)).Nodup) →
      ∃ row, (persistCrude table ds).1.find?
        (crudeKeyMatch d.crude_product_id d.period_id) = some row ∧
        applyCrude d row = row := by
  intro ds
  induction ds with
  | nil => intro table d h; cases h
  | cons x xs ih =>
    intro table d hd hnd
    rw [persistCrude]
    rcases List.mem_cons.mp hd with hdx | hdx
    · subst hdx
      have hrow : ∃ row0, (upsertCrude table d).1.find?
          (crudeKeyMatch d.crude_product_id d.period_id) = some row0 ∧
          applyCrude d row0 = row0 := by
        cases hfind : table.find?
            (crudeKeyMatch d.crude_product_id d.period_id) with
        | some r =>
          simp only [upsertCrude, hfind]
          exact ⟨applyCrude d r,
            find?_updateFirst_self (p := crudeKeyMatch d.crude_product_id
              d.period_id) (f := applyCrude d) (fun r => rfl) hfind,
            rfl⟩
        | none =>
          simp only [upsertCrude, hfind]
          have hpred : crudeKeyMatch d.crude_product_id d.period_id
              (newCrudeRow d) = true := by
            rw [crudeKeyMatch, newCrudeRow]
            simp
          refine ⟨newCrudeRow d, ?_, rfl⟩
          rw [find?_append_none hfind, List.find?_cons_of_pos _ hpred]
      obtain ⟨row0, hrow0, happ⟩ := hrow
      refine ⟨row0, persistCrude_find_preserved xs _ _ _ row0 ?_ hrow0, happ⟩
      intro y hy hyc
      apply (List.nodup_cons.mp hnd).1
      have hm : d.crude_product_id ∈ xs.map (fun x => x.crude_product_id) := by
        rw [← hyc]
        exact List.mem_map.mpr ⟨y, hy, rfl⟩
      exact hm
    · exact ih _ d hdx (List.nodup_cons.mp hnd).2

/-- Upserts for other products do not disturb a product's found row. -/
lemma persistProduct_find_preserved :
    ∀ (ds : List ProductCalcResult) (table : List StandardCostRow)
      (pid per : String) (row : StandardCostRow),
      (∀ x ∈ ds, x.product_id ≠ pid) →
      table.find? (productKeyMatch pid per) = some row →
      (persistProduct table ds).1.find? (productKeyMatch pid per) = some row := by
  intro ds
  induction ds with
  | nil => intro table pid per row _ h; exact h
  | cons x xs ih =>
    intro table pid per row hne h
    rw [persistProduct]
    apply ih _ pid per row (fun y hy => hne y (List.mem_cons_of_mem x hy))
    have hdisj : ∀ r : StandardCostRow,
        ¬(productKeyMatch pid per r = true ∧
          productKeyMatch x.product_id x.period_id r = true) := by
      intro r hr
      obtain ⟨h1, h2⟩ := hr
      simp only [productKeyMatch, Bool.and_eq_true, beq_iff_eq] at h1 h2
      apply hne x (List.mem_cons_self x xs)
      rw [← h2.1]
      exact h1.1
    cases hfind : table.find? (productKeyMatch x.product_id x.period_id) with
    | some r0 =>
      simp only [upsertProduct, hfind]
      rw [find?_updateFirst_other (f := applyProduct x) hdisj (fun r => rfl)]
      exact h
    | none =>
      simp only [upsertProduct, hfind]
      exact find?_append_some h

/-- After the save loop, each computed product's (item, period) row holds
that product's computed cost fields. -/
lemma persistProduct_find :
    ∀ (ds : List ProductCalcResult) (table : List StandardCostRow)
      (d : ProductCalcResult), d ∈ ds →
      ((ds.map (fun x => x.product_id)).Nodup) →
      ∃ row, (persistProduct table ds).1.find?
        (productKeyMatch d.product_id d.period_id) = some row ∧
        applyProduct d row = row := by
  intro ds
  induction ds with
  | nil => intro table d h; cases h
  | cons x xs ih =>
    intro table d hd hnd
    rw [persistProduct]
    rcases List.mem_cons.mp hd with hdx | hdx
    · subst hdx
      have hrow : ∃ row0, (upsertProduct table d).1.find?
          (productKeyMatch d.product_id d.period_id) = some row0 ∧
          applyProduct d row0 = row0 := by
        cases hfind : table.find?
            (productKeyMatch d.product_id d.period_id) with
        | some r =>
          simp only [upsertProduct, hfind]
          exact ⟨applyProduct d r,
            find?_updateFirst_self (p := productKeyMatch d.product_id
              d.period_id) (f := applyProduct d) (fun r => rfl) hfind,
            rfl⟩
        | none =>
          simp only [upsertProduct, hfind]
          have hpred : productKeyMatch d.product_id d.period_id
              (newProductRow d) = true := by
            rw [productKeyMatch, newProductRow]
            simp
          refine ⟨newProductRow d, ?_, rfl⟩
          rw [find?_append_none hfind, List.find?_cons_of_pos _ hpred]
      obtain ⟨row0, hrow0, happ⟩ := hrow
      refine ⟨row0, persistProduct_find_preserved xs _ _ _ row0 ?_ hrow0, happ⟩
      intro y hy hyc
      apply (List.nodup_cons.mp hnd).1
      have hm : d.product_id ∈ xs.map (fun x => x.product_id) := by
        rw [← hyc]
        exact List.mem_map.mpr ⟨y, hy, rfl⟩
      exact hm
    · exact ih _ d hdx (List.nodup_cons.mp hnd).2

/-- The BOM grouping never repeats an owner id. -/
lemma groupFirst_keys_nodup (key : BomHeader → Option String) :
    ∀ (bs : List BomHeader) (acc : List (String × BomHeader)),
      ((acc.map Prod.fst).Nodup) →
      (((groupFirst key acc bs).map Prod.fst).Nodup) := by
  intro bs
  induction bs with
  | nil => intro acc h; exact h
  | cons b rest ih =>
    intro acc h
    rw [groupFirst]
    cases key b with
    | none => exact ih acc h
    | some k =>
      dsimp only
      by_cases hmem : acc.any (fun p => p.1 == k)
      · rw [if_pos hmem]
        exact ih acc h
      · rw [if_neg hmem]
        apply ih
        rw [List.map_append]
        refine List.Nodup.append h (by simp) ?_
        intro a ha hb
        simp only [List.map_cons, List.map_nil, List.mem_singleton] at hb
        subst hb
        apply hmem
        rw [List.any_eq_true]
        obtain ⟨p, hp, he⟩ := List.mem_map.mp ha
        exact ⟨p, hp, by simp [he]⟩

/-- The Stage-1 BOM map has duplicate-free crude-product ids. -/
lemma cpBomMapOf_keys_nodup (db : DB) : ((cpBomMapOf db).map Prod.fst).Nodup := by
  rw [cpBomMapOf, List.map_map]
  have hc : (Prod.fst ∘ fun p : String × BomHeader => (p.1, p.2.lines)) =
      Prod.fst := rfl
  rw [hc]
  exact groupFirst_keys_nodup _ _ [] (by simp)

/-- The Stage-2 BOM map has duplicate-free product ids. -/
lemma prodBomMapOf_keys_nodup (db : DB) (product_ids : Option (List String)) :
    ((prodBomMapOf db product_ids).map Prod.fst).Nodup := by
  have hbase : (((groupFirst (fun b => b.product_id) []
      (load_bom_headers db .product_process)).map
      (fun p => (p.1, p.2.lines))).map Prod.fst).Nodup := by
    rw [List.map_map]
    have hc : (Prod.fst ∘ fun p : String × BomHeader => (p.1, p.2.lines)) =
        Prod.fst := rfl
    rw [hc]
    exact groupFirst_keys_nodup _ _ [] (by simp)
  cases product_ids with
  | none =>
    simp only [prodBomMapOf]
    exact hbase
  | some pids =>
    simp only [prodBomMapOf]
    by_cases hemp : pids.isEmpty
    · rw [if_pos hemp]
      exact hbase
    · rw [if_neg hemp]
      exact List.Nodup.sublist ((List.filter_sublist _).map Prod.fst) hbase

/-- One Stage-1 step leaves the results unchanged or appends the processed
id's entry, whose record carries that id and the environment's period. -/
lemma stage1Step_entry (env : Stage1Env)
    (results : List (String × CrudeCalcResult)) (c : String) :
    stage1Step env results c = results ∨
    ∃ r, stage1Step env results c = results ++ [(c, r)] ∧
      r.crude_product_id = c ∧ r.period_id = env.period_id := by
  rw [stage1Step]
  cases env.crude_products.find? (fun cp => cp.id == c) with
  | none => exact Or.inl rfl
  | some _ =>
    cases env.cp_bom_map.lookup c with
    | none => exact Or.inl rfl
    | some lines => exact Or.inr ⟨_, rfl, rfl, rfl⟩

/-- Entries of the Stage-1 loop carry their own key and the period. -/
lemma stage1Fold_entry (env : Stage1Env) :
    ∀ (l : List String) (acc : List (String × CrudeCalcResult))
      (p : String × CrudeCalcResult), p ∈ l.foldl (stage1Step env) acc →
      p ∈ acc ∨ (p.2.crude_product_id = p.1 ∧ p.2.period_id = env.period_id) := by
  intro l
  induction l with
  | nil => intro acc p h; exact Or.inl h
  | cons c rest ih =>
    intro acc p h
    rw [List.foldl_cons] at h
    rcases ih (stage1Step env acc c) p h with h' | h'
    · rcases stage1Step_entry env acc c with he | ⟨r, he, h1, h2⟩
      · rw [he] at h'
        exact Or.inl h'
      · rw [he] at h'
        rcases List.mem_append.mp h' with h'' | h''
        · exact Or.inl h''
        · simp only [List.mem_singleton] at h''
          subst h''
          exact Or.inr ⟨h1, h2⟩
    · exact Or.inr h'

/-- One Stage-2 step leaves the results unchanged or appends the processed
product's entry, whose record carries that id and the period. -/
lemma stage2Step_entry (env : Stage2Env)
    (results : List (String × ProductCalcResult))
    (pb : String × List BomLine) :
    stage2Step env results pb = results ∨
    ∃ r, stage2Step env results pb = results ++ [(pb.1, r)] ∧
      r.product_id = pb.1 ∧ r.period_id = env.period_id := by
  rw [stage2Step]
  cases env.all_products.find? (fun pr => pr.id == pb.1) with
  | none => exact Or.inl rfl
  | some prod => exact Or.inr ⟨_, rfl, rfl, rfl⟩

/-- Entries of the Stage-2 loop carry their own key and the period. -/
lemma stage2Fold_entry (env : Stage2Env) :
    ∀ (l : List (String × List BomLine))
      (acc : List (String × ProductCalcResult))
      (p : String × ProductCalcResult), p ∈ l.foldl (stage2Step env) acc →
      p ∈ acc ∨ (p.2.product_id = p.1 ∧ p.2.period_id = env.period_id) := by
  intro l
  induction l with
  | nil => intro acc p h; exact Or.inl h
  | cons pb rest ih =>
    intro acc p h
    rw [List.foldl_cons] at h
    rcases ih (stage2Step env acc pb) p h with h' | h'
    · rcases stage2Step_entry env acc pb with he | ⟨r, he, h1, h2⟩
      · rw [he] at h'
        exact Or.inl h'
      · rw [he] at h'
        rcases List.mem_append.mp h' with h'' | h''
        · exact Or.inl h''
        · simp only [List.mem_singleton] at h''
          subst h''
          exact Or.inr ⟨h1, h2⟩
    · exact Or.inr h'

/-- The keys the Stage-2 loop appends form a sublist of the processed map's
keys. -/
lemma stage2Fold_keys (env : Stage2Env) :
    ∀ (l : List (String × List BomLine))
      (acc : List (String × ProductCalcResult)),
      ∃ s : List String, s.Sublist (l.map Prod.fst) ∧
        (l.foldl (stage2Step env) acc).map Prod.fst = acc.map Prod.fst ++ s := by
  intro l
  induction l with
  | nil => intro acc; exact ⟨[], List.Sublist.refl _, by simp⟩
  | cons pb rest ih =>
    intro acc
    rcases stage2Step_entry env acc pb with he | ⟨r, he, _, _⟩
    · rw [List.foldl_cons, he]
      obtain ⟨s, hs, hk⟩ := ih acc
      exact ⟨s, hs.cons pb.1, hk⟩
    · rw [List.foldl_cons, he]
      obtain ⟨s, hs, hk⟩ := ih (acc ++ [(pb.1, r)])
      refine ⟨pb.1 :: s, hs.cons₂ pb.1, ?_⟩
      rw [hk]
      simp

/-- The Stage-1 results are keyed without duplicates when the BOM map is. -/
lemma calcStage1_keys_nodup (env : Stage1Env)
    (h : (env.cp_bom_map.map Prod.fst).Nodup) :
    ((calcStage1 env).map Prod.fst).Nodup := by
  rw [calcStage1]
  obtain ⟨s, hs, hk⟩ := stage1Fold_keys env
    ((env.cp_bom_map.map Prod.fst).mergeSort (cpSortLe env.crude_products)) []
  rw [hk]
  simp only [List.map_nil, List.nil_append]
  exact List.Nodup.sublist hs ((List.mergeSort_perm _ _).nodup_iff.mpr h)

/-- The Stage-2 results are keyed without duplicates when the BOM map is. -/
lemma calcStage2_keys_nodup (env : Stage2Env)
    (prod_bom_map : List (String × List BomLine))
    (h : (prod_bom_map.map Prod.fst).Nodup) :
    ((calcStage2 env prod_bom_map).map Prod.fst).Nodup := by
  rw [calcStage2]
  obtain ⟨s, hs, hk⟩ := stage2Fold_keys env prod_bom_map []
  rw [hk]
  simp only [List.map_nil, List.nil_append]
  exact List.Nodup.sublist hs h

/-- Every crude result entry carries its own key and the requested period. -/
lemma crudeResultsOf_entry (db : DB) (period_id : String) (s : Bool)
    (ov : Overrides) (p : String × CrudeCalcResult)
    (hp : p ∈ crudeResultsOf db period_id s ov) :
    p.2.crude_product_id = p.1 ∧ p.2.period_id = period_id := by
  rw [crudeResultsOf, calcStage1] at hp
  rcases stage1Fold_entry _ _ _ p hp with h0 | ⟨h1, h2⟩
  · cases h0
  · exact ⟨h1, h2⟩

/-- Every product result entry carries its own key and the requested
period. -/
lemma productResultsOf_entry (db : DB) (period_id : String)
    (product_ids : Option (List String)) (s : Bool) (ov : Overrides)
    (p : String × ProductCalcResult)
    (hp : p ∈ productResultsOf db period_id product_ids s ov) :
    p.2.product_id = p.1 ∧ p.2.period_id = period_id := by
  simp only [productResultsOf] at hp
  rw [calcStage2] at hp
  rcases stage2Fold_entry _ _ _ p hp with h0 | ⟨h1, h2⟩
  · cases h0
  · exact ⟨h1, h2⟩

/-- The crude results dict has duplicate-free keys. -/
lemma crudeResultsOf_keys_nodup (db : DB) (period_id : String) (s : Bool)
    (ov : Overrides) :
    ((crudeResultsOf db period_id s ov).map Prod.fst).Nodup := by
  rw [crudeResultsOf]
  exact calcStage1_keys_nodup _ (cpBomMapOf_keys_nodup db)

/-- The product results dict has duplicate-free keys. -/
lemma productResultsOf_keys_nodup (db : DB) (period_id : String)
    (product_ids : Option (List String)) (s : Bool) (ov : Overrides) :
    ((productResultsOf db period_id product_ids s ov).map Prod.fst).Nodup := by
  simp only [productResultsOf]
  exact calcStage2_keys_nodup _ _ (prodBomMapOf_keys_nodup db product_ids)

/-- The computed crude records carry duplicate-free item ids. -/
lemma crudeResultsOf_item_ids_nodup (db : DB) (period_id : String) (s : Bool)
    (ov : Overrides) :
    (((crudeResultsOf db period_id s ov).map Prod.snd).map
      (fun x => x.crude_product_id)).Nodup := by
  have hmap : ((crudeResultsOf db period_id s ov).map Prod.snd).map
      (fun x => x.crude_product_id) =
      (crudeResultsOf db period_id s ov).map Prod.fst := by
    rw [List.map_map]
    apply List.map_congr_left
    intro p hp
    exact (crudeResultsOf_entry db period_id s ov p hp).1
  rw [hmap]
  exact crudeResultsOf_keys_nodup db period_id s ov

/-- The computed product records carry duplicate-free product ids. -/
lemma productResultsOf_item_ids_nodup (db : DB) (period_id : String)
    (product_ids : Option (List String)) (s : Bool) (ov : Overrides) :
    (((productResultsOf db period_id product_ids s ov).map Prod.snd).map
      (fun x => x.product_id)).Nodup := by
  have hmap : ((productResultsOf db period_id product_ids s ov).map
      Prod.snd).map (fun x => x.product_id) =
      (productResultsOf db period_id product_ids s ov).map Prod.fst := by
    rw [List.map_map]
    apply List.map_congr_left
    intro p hp
    exact (productResultsOf_entry db period_id product_ids s ov p hp).1
  rw [hmap]
  exact productResultsOf_keys_nodup db period_id product_ids s ov

/-- C7: for identical inputs and overrides, calculate_standard_costs
computes exactly the same crude-product and product cost values whether
simulate is true or false; when simulate is true no database writes occur
(the database state is returned unchanged: no standard-cost upserts and no
CostAllocation audit rows), and when simulate is false each computed item
is upserted by its (item, period) key — afterwards the first row matching
that key holds exactly the computed cost fields. -/
theorem c7_simulate_symmetry (db : DB) (period_id : String)
    (product_ids : Option (List String)) (ov : Overrides) :
    (calculate_standard_costs db period_id product_ids true
        ov).2.crude_cost_results =
      (calculate_standard_costs db period_id product_ids false
        ov).2.crude_cost_results ∧
    (calculate_standard_costs db period_id product_ids true
        ov).2.product_cost_results =
      (calculate_standard_costs db period_id product_ids false
        ov).2.product_cost_results ∧
    (calculate_standard_costs db period_id product_ids true ov).1 = db ∧
    (∀ d ∈ ((calculate_standard_costs db period_id product_ids false
        ov).2.crude_cost_results).map Prod.snd,
      ∃ row, (calculate_standard_costs db period_id product_ids false
          ov).1.crude_standard_costs.find?
          (crudeKeyMatch d.crude_product_id d.period_id) = some row ∧
        applyCrude d row = row) ∧
    (∀ d ∈ ((calculate_standard_costs db period_id product_ids false
        ov).2.product_cost_results).map Prod.snd,
      ∃ row, (calculate_standard_costs db period_id product_ids false
          ov).1.standard_costs.find?
          (productKeyMatch d.product_id d.period_id) = some row ∧
        applyProduct d row = row) := by
  refine ⟨?_, ?_, ?_, ?_, ?_⟩
  · show crudeResultsOf db period_id true ov =
      crudeResultsOf db period_id false ov
    exact crudeResultsOf_simulate db period_id ov true false
  · show productResultsOf db period_id product_ids true ov =
      productResultsOf db period_id product_ids false ov
    exact productResultsOf_simulate db period_id product_ids ov true false
  · show ({ db with
        cost_allocations := db.cost_allocations ++
          (stage1Allocation db period_id true ov).1 ++
          (stage2Allocation db period_id product_ids true ov).1
        crude_standard_costs := db.crude_standard_costs
        standard_costs := db.standard_costs } : DB) = db
    rw [stage1Allocation_rows_simulate, stage2Allocation_rows_simulate,
      List.append_nil, List.append_nil]
  · intro d hd
    exact persistCrude_find
      ((crudeResultsOf db period_id false ov).map Prod.snd)
      db.crude_standard_costs d hd
      (crudeResultsOf_item_ids_nodup db period_id false ov)
  · intro d hd
    exact persistProduct_find
      ((productResultsOf db period_id product_ids false ov).map Prod.snd)
      db.standard_costs d hd
      (productResultsOf_item_ids_nodup db period_id product_ids false ov)

end StdCost
